import Mathlib

/-! mechain-cmd: URL parsing, transaction confirmation and paged deletion.

A shallow embedding of `cmd/client_gnfd.go` (`ParseBucketAndObject`,
`ParseBucketAndPrefix`, `ParseBucket`, `waitTxnStatus`) and of
`cmd/cmd_delete.go` (`deleteObjectByPage`, `deleteObjectAndWaitTxn`).

* A Go `string` is a finite byte sequence.  It is represented by a list whose
  elements stand for single bytes; all slicing and searching is done per
  element, exactly as Go does it per byte.
* A Go run-time panic (slice or index out of range) is the outer `none` of an
  `Option` result.
* The remote client (`client.IClient`) is a script: the answer given to the
  k-th call of each method.  Every call the program makes is recorded in a
  trace of events, together with every line it prints.
-/

namespace MechainCmd

/-! ## Go strings and the `strings` functions used by the program -/

/-- A Go string: a sequence of bytes, one list element per byte. -/
abbrev GoString := List Char

/-- A Go `error` value: `none` is `nil`, `some msg` is an error whose
`Error()` text is `msg`. -/
abbrev GoError := Option GoString

/-- Go's `strings.Index(s, substr)`: the index of the first occurrence of
`substr` in `s`, or `-1` when there is none. -/
def Index : GoString → GoString → Int
  | [], substr => if substr = [] then 0 else -1
  | c :: t, substr =>
    if substr.isPrefixOf (c :: t) then 0
    else
      let r := Index t substr
      if r < 0 then -1 else r + 1

/-- Go's `strings.Contains(s, substr)`, which is `Index(s, substr) >= 0`. -/
def Contains (s substr : GoString) : Bool :=
  decide (0 ≤ Index s substr)

/-- The slice expression `s[lo:]`; it panics unless `0 ≤ lo ≤ len(s)`. -/
def sliceFrom (s : GoString) (lo : Int) : Option GoString :=
  if 0 ≤ lo ∧ lo ≤ (s.length : Int) then some (s.drop lo.toNat) else none

/-- The slice expression `s[:hi]`; it panics unless `0 ≤ hi ≤ len(s)`. -/
def sliceTo (s : GoString) (hi : Int) : Option GoString :=
  if 0 ≤ hi ∧ hi ≤ (s.length : Int) then some (s.take hi.toNat) else none

/-- The loop of Go's `genSplit` (with `sepSave = 0`): at most `k` cuts at
occurrences of `sep`, then the remainder as last element. -/
def genSplitLoop : Nat → GoString → GoString → List GoString
  | 0, s, _ => [s]
  | k + 1, s, sep =>
    let m := Index s sep
    if m < 0 then [s]
    else s.take m.toNat :: genSplitLoop k (s.drop (m.toNat + sep.length)) sep

/-- Go's `strings.SplitN(s, sep, n)` for a non-empty separator and `n ≥ 0`
(the program only calls it with `sep = "/"` and `n = 1`): `n = 0` gives no
element, otherwise `n` is capped at `len(s) + 1` and at most `n - 1` cuts are
made. -/
def SplitN (s sep : GoString) (n : Nat) : List GoString :=
  if n = 0 then []
  else
    let n := if n > s.length + 1 then s.length + 1 else n
    genSplitLoop (n - 1) s sep

/-! ## `cmd/client_gnfd.go`: the URL parsers -/

/-- The constant `urlPrefix`. -/
def urlPrefix : GoString := "mechain://".toList

/-- Lines 80-82, 95-97 and 110-112 of `client_gnfd.go`, the same statement in
all three parsers:
`if strings.Contains(urlPath, urlPrefix) { urlPath = urlPath[len(urlPrefix):] }`. -/
def stripUrlPrefix (urlPath : GoString) : Option GoString :=
  if Contains urlPath urlPrefix then sliceFrom urlPath (urlPrefix.length : Int)
  else some urlPath

/-- `ParseBucketAndObject`: bucket name, object name and error. -/
def ParseBucketAndObject (urlPath : GoString) :
    Option (GoString × GoString × GoError) :=
  (stripUrlPrefix urlPath).bind fun urlPath =>
    let index := Index urlPath "/".toList
    if index ≤ -1 then
      some ([], [],
        some "url not right, can not parse bucket name and object name".toList)
    else
      (sliceTo urlPath index).bind fun bucket =>
        (sliceFrom urlPath (index + 1)).bind fun object =>
          some (bucket, object, none)

/-- `ParseBucketAndPrefix`: bucket name, prefix and error. -/
def ParseBucketAndPrefix (urlPath : GoString) :
    Option (GoString × GoString × GoError) :=
  (stripUrlPrefix urlPath).bind fun urlPath =>
    let index := Index urlPath "/".toList
    if index ≤ -1 then
      some (urlPath, [], none)
    else
      (sliceTo urlPath index).bind fun bucket =>
        (sliceFrom urlPath (index + 1)).bind fun pfx =>
          some (bucket, pfx, none)

/-- `ParseBucket`: `splits := strings.SplitN(urlPath, "/", 1); return splits[0]`. -/
def ParseBucket (urlPath : GoString) : Option GoString :=
  (stripUrlPrefix urlPath).bind fun urlPath =>
    let splits := SplitN urlPath "/".toList 1
    splits[0]?

/-! ## The remote client and the trace of a run -/

/-- The part of `ObjectInfo` the program reads. -/
structure ObjectInfo where
  ObjectName : GoString
  deriving DecidableEq

/-- One entry of `ListObjectsResult.Objects`. -/
structure ObjectMeta where
  ObjectInfo : ObjectInfo
  deriving DecidableEq

/-- The fields of `sdktypes.ListObjectsResult` the program reads. -/
structure ListObjectsResult where
  Objects : List ObjectMeta
  IsTruncated : Bool
  NextContinuationToken : GoString
  deriving DecidableEq

/-- The fields of `sdktypes.ListObjectsOptions` the program sets. -/
structure ListObjectsOptions where
  ShowRemovedObject : Bool
  MaxKeys : Nat
  ContinuationToken : GoString
  Prefix : GoString
  deriving DecidableEq

/-- The field `TxResult.Code` of the response of `WaitForTx`. -/
structure TxResult where
  Code : Nat
  deriving DecidableEq

/-- The response of `WaitForTx`. -/
structure ResultTx where
  TxResult : TxResult
  deriving DecidableEq

/-- The remote client as a script: field `M k` is the answer the service gives
to the `k`-th call (counted from 0) of method `M` still to be made.  A timeout
or cancellation of the context passed to `WaitForTx` is one of its error
answers. -/
structure Client where
  ListObjects : Nat → Except GoString ListObjectsResult
  DeleteObject : Nat → Except GoString GoString
  WaitForTx : Nat → Except GoString ResultTx

/-- The client after one `ListObjects` call has been answered. -/
def Client.afterListObjects (cli : Client) : Client :=
  { cli with ListObjects := fun k => cli.ListObjects (k + 1) }

/-- The client after one `DeleteObject` call has been answered. -/
def Client.afterDeleteObject (cli : Client) : Client :=
  { cli with DeleteObject := fun k => cli.DeleteObject (k + 1) }

/-- The client after one `WaitForTx` call has been answered. -/
def Client.afterWaitForTx (cli : Client) : Client :=
  { cli with WaitForTx := fun k => cli.WaitForTx (k + 1) }

/-- What a run does that can be observed: the remote calls with their
arguments, and the text written by `fmt.Printf` and `fmt.Println`.  The
context argument and the constant option `TxOpts: &TxnOptionWithSyncMode` of
`DeleteObject`, `DeleteBucket` and `DeleteGroup` are the same in every call
and are left out. -/
inductive Event where
  | ListObjects (bucketName : GoString) (opts : ListObjectsOptions)
  | DeleteObject (bucketName objectName privateKey : GoString)
  | WaitForTx (txnHash : GoString)
  | Printf (text : GoString)
  | HeadBucket (bucketName : GoString)
  | DeleteBucket (bucketName privateKey : GoString)
  | DeleteGroup (groupName privateKey : GoString)
  deriving DecidableEq

/-- The verb `%d` applied to a transaction result code. -/
def fmtCode (code : Nat) : GoString := Nat.toDigits 10 code

/-! ## `cmd/client_gnfd.go`: `waitTxnStatus` -/

/-- The text of
`fmt.Errorf("the %s txn: %s ,has been submitted, please check it later:%v", ...)`. -/
def submittedError (txnInfo txnHash err : GoString) : GoString :=
  "the ".toList ++ txnInfo ++ " txn: ".toList ++ txnHash
    ++ " ,has been submitted, please check it later:".toList ++ err

/-- The text of
`fmt.Errorf("the %s txn: %s has failed with response code: %d", ...)`. -/
def failedError (txnInfo txnHash : GoString) (code : Nat) : GoString :=
  "the ".toList ++ txnInfo ++ " txn: ".toList ++ txnHash
    ++ " has failed with response code: ".toList ++ fmtCode code

/-- `waitTxnStatus`: the returned error, the calls made, and the client
afterwards. -/
def waitTxnStatus (cli : Client) (txnHash txnInfo : GoString) :
    GoError × List Event × Client :=
  match cli.WaitForTx 0 with
  | .error err =>
    (some (submittedError txnInfo txnHash err), [Event.WaitForTx txnHash],
      cli.afterWaitForTx)
  | .ok txnResponse =>
    if txnResponse.TxResult.Code ≠ 0 then
      (some (failedError txnInfo txnHash txnResponse.TxResult.Code),
        [Event.WaitForTx txnHash], cli.afterWaitForTx)
    else
      (none, [Event.WaitForTx txnHash], cli.afterWaitForTx)

/-! ## `cmd/cmd_delete.go`: deletion of all objects of a listing -/

/-- `deleteObjectAndWaitTxn`: the events of the call and the client
afterwards (the Go function returns nothing). -/
def deleteObjectAndWaitTxn (cli : Client)
    (bucketName objectName privateKey : GoString) : List Event × Client :=
  match cli.DeleteObject 0 with
  | .error err =>
    ([Event.DeleteObject bucketName objectName privateKey,
      Event.Printf ("failed to delete object ".toList ++ objectName
        ++ " err:".toList ++ err ++ "\n".toList)],
      cli.afterDeleteObject)
  | .ok txnHash =>
    match waitTxnStatus cli.afterDeleteObject txnHash "DeleteObject".toList with
    | (some err, evs, cli1) =>
      (Event.DeleteObject bucketName objectName privateKey :: evs
        ++ [Event.Printf ("failed to query the txn of deleting object ".toList
          ++ objectName ++ ", err:".toList ++ err ++ "\n".toList)],
        cli1)
    | (none, evs, cli1) =>
      (Event.DeleteObject bucketName objectName privateKey :: evs
        ++ [Event.Printf ("delete: ".toList ++ objectName ++ "\n".toList)],
        cli1)

/-- The inner loop of `deleteObjectByPage`:
`for _, object := range listResult.Objects { deleteObjectAndWaitTxn(...) }`. -/
def deleteObjects (bucketName privateKey : GoString) :
    Client → List ObjectMeta → List Event × Client
  | cli, [] => ([], cli)
  | cli, object :: rest =>
    match deleteObjectAndWaitTxn cli bucketName object.ObjectInfo.ObjectName
        privateKey with
    | (evs, cli1) =>
      match deleteObjects bucketName privateKey cli1 rest with
      | (evs2, cli2) => (evs ++ evs2, cli2)

/-- The `for { ... }` loop of `deleteObjectByPage`, run for at most `fuel`
iterations from the given `continuationToken`.  The first component is
`some err` when the function has returned `err` and `none` when the loop is
still running after `fuel` iterations; the second is the trace so far.

`toCmdErr` and `defaultMaxKey` are declared in `utils.go`, which is not part
of the sources at hand, and are therefore parameters. -/
def deleteObjectByPageLoop (toCmdErr : GoError → GoError) (defaultMaxKey : Nat)
    (bucketName prefixName privateKey : GoString) :
    Nat → Client → GoString → Option GoError × List Event
  | 0, _, _ => (none, [])
  | fuel + 1, cli, continuationToken =>
    let call := Event.ListObjects bucketName
      { ShowRemovedObject := false
        MaxKeys := defaultMaxKey
        ContinuationToken := continuationToken
        Prefix := prefixName }
    match cli.ListObjects 0 with
    | .error err => (some (toCmdErr (some err)), [call])
    | .ok listResult =>
      match deleteObjects bucketName privateKey cli.afterListObjects
          listResult.Objects with
      | (evs, cli1) =>
        if !listResult.IsTruncated then
          (some none, call :: evs)
        else
          match deleteObjectByPageLoop toCmdErr defaultMaxKey bucketName
              prefixName privateKey fuel cli1
              listResult.NextContinuationToken with
          | (ret, evs2) => (ret, call :: evs ++ evs2)

/-- `deleteObjectByPage`: the loop started with the zero value `""` of
`continuationToken`. -/
def deleteObjectByPage (toCmdErr : GoError → GoError) (defaultMaxKey : Nat)
    (fuel : Nat) (cli : Client) (bucketName prefixName privateKey : GoString) :
    Option GoError × List Event :=
  deleteObjectByPageLoop toCmdErr defaultMaxKey bucketName prefixName
    privateKey fuel cli []

/-! ## Reading a trace -/

/-- The object names passed to `DeleteObject`, in call order. -/
def deletedNames : List Event → List GoString
  | [] => []
  | Event.DeleteObject _ objectName _ :: rest => objectName :: deletedNames rest
  | _ :: rest => deletedNames rest

/-- The `ListObjects` and `DeleteObject` calls of a trace, in call order. -/
def listAndDeleteCalls : List Event → List Event
  | [] => []
  | Event.ListObjects b o :: rest =>
    Event.ListObjects b o :: listAndDeleteCalls rest
  | Event.DeleteObject b o k :: rest =>
    Event.DeleteObject b o k :: listAndDeleteCalls rest
  | _ :: rest => listAndDeleteCalls rest

/-- The number of `ListObjects` calls of a trace. -/
def listCallCount : List Event → Nat
  | [] => 0
  | Event.ListObjects _ _ :: rest => listCallCount rest + 1
  | _ :: rest => listCallCount rest

/-- The object names of the page the script serves as answer `k` of
`ListObjects` (none when that answer is an error). -/
def pageNames (cli : Client) (k : Nat) : List GoString :=
  match cli.ListObjects k with
  | .ok listResult => listResult.Objects.map fun o => o.ObjectInfo.ObjectName
  | .error _ => []

/-- The object names of pages `0, ..., n - 1` of the script, concatenated. -/
def namesOfPages (cli : Client) : Nat → List GoString
  | 0 => []
  | n + 1 => namesOfPages cli n ++ pageNames cli n

/-! ## Reading a URL: the two sides of its first separator -/

/-- The part of `s` before its first `/` (all of `s` when it has none). -/
def beforeSlash (s : GoString) : GoString :=
  s.takeWhile fun c => c != '/'

/-- The part of `s` after its first `/` (empty when it has none). -/
def afterSlash (s : GoString) : GoString :=
  (s.dropWhile fun c => c != '/').drop 1

/-! ## Example scripts -/

/-- A service on which every transaction is included with result code 5. -/
def rejectingClient : Client where
  ListObjects := fun _ => .ok ⟨[], false, "".toList⟩
  DeleteObject := fun _ => .ok "0xAB".toList
  WaitForTx := fun _ => .ok ⟨⟨5⟩⟩

/-- The first page of the `photos/` listing: two objects, more to come. -/
def photosPage0 : ListObjectsResult :=
  ⟨[⟨⟨"photos/a.png".toList⟩⟩, ⟨⟨"photos/b.png".toList⟩⟩], true, "t1".toList⟩

/-- The second and last page of the `photos/` listing: one object. -/
def photosPage1 : ListObjectsResult :=
  ⟨[⟨⟨"photos/c.png".toList⟩⟩], false, "".toList⟩

/-- A service that lists three objects under `photos/` on two pages and on
which every deletion is broadcast and confirmed with code 0. -/
def photosClient : Client where
  ListObjects := fun k => match k with
    | 0 => .ok photosPage0
    | _ => .ok photosPage1
  DeleteObject := fun _ => .ok "0xAB".toList
  WaitForTx := fun _ => .ok ⟨⟨0⟩⟩

/-- The same listing on a service that refuses every `DeleteObject`. -/
def photosClientAllFail : Client where
  ListObjects := photosClient.ListObjects
  DeleteObject := fun _ => .error "denied".toList
  WaitForTx := fun _ => .error "timeout".toList

/-- A service whose second `ListObjects` answer is an error. -/
def brokenListingClient : Client where
  ListObjects := fun k => match k with
    | 0 => .ok photosPage0
    | _ => .error "connection refused".toList
  DeleteObject := fun _ => .ok "0xAB".toList
  WaitForTx := fun _ => .ok ⟨⟨0⟩⟩

/-! ## Reading a trace: the calls of each kind and the printed text -/

/-- The `ListObjects` calls of a trace, in call order: bucket and options. -/
def listCalls : List Event → List (GoString × ListObjectsOptions)
  | [] => []
  | Event.ListObjects b o :: rest => (b, o) :: listCalls rest
  | _ :: rest => listCalls rest

/-- The `DeleteObject` and `WaitForTx` calls of a trace, in call order. -/
def deleteAndWaitCalls : List Event → List Event
  | [] => []
  | Event.DeleteObject b o k :: rest =>
    Event.DeleteObject b o k :: deleteAndWaitCalls rest
  | Event.WaitForTx h :: rest => Event.WaitForTx h :: deleteAndWaitCalls rest
  | _ :: rest => deleteAndWaitCalls rest

/-- The texts printed during a run, in order. -/
def printedLines : List Event → List GoString
  | [] => []
  | Event.Printf text :: rest => text :: printedLines rest
  | _ :: rest => printedLines rest

/-- The remote calls of a trace, in call order: all events but the printed
text. -/
def remoteCalls : List Event → List Event
  | [] => []
  | Event.Printf _ :: rest => remoteCalls rest
  | e :: rest => e :: remoteCalls rest

/-! ## A listing service that serves its objects in pages of `P` -/

/-- The answers of a listing service that holds `objects` and serves them in
their order in pages of `P` items: answer `k` is the `k`-th page, truncated
exactly when objects remain after it, with `token k` as continuation token. -/
def pagedListing (objects : List ObjectMeta) (P : Nat) (token : Nat → GoString)
    (k : Nat) : Except GoString ListObjectsResult :=
  .ok ⟨(objects.drop (k * P)).take P, decide ((k + 1) * P < objects.length),
    token k⟩

/-- A service whose listing is empty. -/
def emptyListingClient : Client where
  ListObjects := pagedListing [] 1 fun _ => "".toList
  DeleteObject := fun _ => .ok "0xAB".toList
  WaitForTx := fun _ => .ok ⟨⟨0⟩⟩

/-- A service that holds the three `photos/` objects and serves them in pages
of two. -/
def photosPagedClient : Client where
  ListObjects := pagedListing (photosPage0.Objects ++ photosPage1.Objects) 2
    fun _ => "next".toList
  DeleteObject := fun _ => .ok "0xAB".toList
  WaitForTx := fun _ => .ok ⟨⟨0⟩⟩

/-! ## The outcome of each deletion, read off the script -/

/-- The number of `DeleteObject` answers `0, ..., i - 1` that are successes:
the number of `WaitForTx` calls made before the `i`-th deletion. -/
def broadcastCount (cli : Client) : Nat → Nat
  | 0 => 0
  | i + 1 =>
    broadcastCount cli i
      + (match cli.DeleteObject i with
        | .ok _ => 1
        | .error _ => 0)

/-- What becomes of one deletion: the transaction is confirmed with code 0,
or the broadcast fails, or the confirmation fails or reports a rejection. -/
inductive ItemOutcome where
  | deleted
  | notBroadcast (cause : GoString)
  | notConfirmed (cause : GoString)
  deriving DecidableEq

/-- The outcome of the `i`-th deletion of a run (counted from 0) on the
service `cli`: it gets answer `i` of `DeleteObject` and, when that is a
transaction hash, the next unused answer of `WaitForTx`. -/
def itemOutcome (cli : Client) (i : Nat) : ItemOutcome :=
  match cli.DeleteObject i with
  | .error err => .notBroadcast err
  | .ok txnHash =>
    match cli.WaitForTx (broadcastCount cli i) with
    | .error err =>
      .notConfirmed (submittedError "DeleteObject".toList txnHash err)
    | .ok txnResponse =>
      if txnResponse.TxResult.Code ≠ 0 then
        .notConfirmed
          (failedError "DeleteObject".toList txnHash txnResponse.TxResult.Code)
      else .deleted

/-- The line that reports an outcome for the object `objectName`. -/
def ItemOutcome.line (objectName : GoString) : ItemOutcome → GoString
  | .deleted => "delete: ".toList ++ objectName ++ "\n".toList
  | .notBroadcast cause =>
    "failed to delete object ".toList ++ objectName ++ " err:".toList ++ cause
      ++ "\n".toList
  | .notConfirmed cause =>
    "failed to query the txn of deleting object ".toList ++ objectName
      ++ ", err:".toList ++ cause ++ "\n".toList

/-- The report lines of the deletions number `i, i + 1, ...` applied to the
given object names. -/
def reportLines (cli : Client) : Nat → List GoString → List GoString
  | _, [] => []
  | i, objectName :: rest =>
    (itemOutcome cli i).line objectName :: reportLines cli (i + 1) rest

/-- The object names whose deletion succeeds, in order. -/
def succeededNames (cli : Client) : Nat → List GoString → List GoString
  | _, [] => []
  | i, objectName :: rest =>
    match itemOutcome cli i with
    | .deleted => objectName :: succeededNames cli (i + 1) rest
    | _ => succeededNames cli (i + 1) rest

/-- The object names whose deletion fails, each with its failing outcome, in
order. -/
def failedItems (cli : Client) : Nat → List GoString → List (GoString × ItemOutcome)
  | _, [] => []
  | i, objectName :: rest =>
    match itemOutcome cli i with
    | .deleted => failedItems cli (i + 1) rest
    | o => (objectName, o) :: failedItems cli (i + 1) rest

/-- Whether a printed line is a success line `delete: ...`. -/
def isDeleteLine (text : GoString) : Bool :=
  "delete: ".toList.isPrefixOf text

/-- The remote calls of the deletions number `i, i + 1, ...` applied to the
given object names: for each object one `DeleteObject` call, followed by one
`WaitForTx` call on the returned hash when the broadcast succeeded. -/
def itemCalls (cli : Client) (bucketName privateKey : GoString) :
    Nat → List GoString → List Event
  | _, [] => []
  | i, objectName :: rest =>
    (Event.DeleteObject bucketName objectName privateKey
      :: (match cli.DeleteObject i with
          | .ok txnHash => [Event.WaitForTx txnHash]
          | .error _ => []))
      ++ itemCalls cli bucketName privateKey (i + 1) rest

/-- The script `cur` is what is left of the script `cli` after `i` deletions:
a run that has reached `cur` gets from it the answers that `cli` gives from
deletion `i` on. -/
def ScriptAt (cli cur : Client) (i : Nat) : Prop :=
  (∀ k, cur.DeleteObject k = cli.DeleteObject (k + i))
    ∧ ∀ k, cur.WaitForTx k = cli.WaitForTx (k + broadcastCount cli i)

/-- The `photos/` listing on a service where the confirmation of the second
deletion times out. -/
def photosClientTimeout : Client where
  ListObjects := photosClient.ListObjects
  DeleteObject := fun _ => .ok "0xAB".toList
  WaitForTx := fun k => match k with
    | 1 => .error "context deadline exceeded".toList
    | _ => .ok ⟨⟨0⟩⟩

/-! ## `cmd/cmd_delete.go`: the single-operation commands -/

/-- The client with the further methods of `client.IClient` that the
single-operation commands call, scripted like the others. -/
structure AdminClient extends Client where
  HeadBucket : Nat → Except GoString Unit
  DeleteBucket : Nat → Except GoString GoString
  DeleteGroup : Nat → Except GoString GoString

/-- What the commands read of `*cli.Context`: the arguments (`ctx.NArg()` is
their number, `ctx.Args().Get(0)` the first of them) and the flag
`--recursive`. -/
structure CliContext where
  Args : List GoString
  recursive : Bool

/-- The functions and constants of `utils.go` that the commands use; that
file is not part of the sources at hand, so they are parameters.  `NewClient`
stands for the call `NewClient(ctx, ClientOptions{IsQueryCmd: false})`, which
reads keystore and configuration through `utils.go` and the SDK. -/
structure Utils where
  toCmdErr : GoError → GoError
  defaultMaxKey : Nat
  getBucketNameByUrl : CliContext → GoString × GoError
  getObjAndBucketNames : GoString → GoString × GoString × GoError
  getGroupNameByUrl : CliContext → GoString × GoError
  NewClient : CliContext → Except GoString (AdminClient × GoString)

/-- Go's `strings.HasSuffix(s, suffix)`. -/
def HasSuffix (s suffix : GoString) : Bool :=
  suffix.isSuffixOf s

/-- The events of the existence check of `deleteBucket`
(`client.HeadBucket`, whose failure is printed and does not end the
command). -/
def headBucketEvents (client : AdminClient) (bucketName : GoString) : List Event :=
  match client.HeadBucket 0 with
  | .error _ =>
    [Event.HeadBucket bucketName,
      Event.Printf ("bucket ".toList ++ bucketName
        ++ " not exist or already deleted\n".toList)]
  | .ok _ => [Event.HeadBucket bucketName]

/-- `deleteBucket`: the returned error and the trace. -/
def deleteBucket (u : Utils) (ctx : CliContext) : GoError × List Event :=
  if ctx.Args.length ≠ 1 then
    (u.toCmdErr (some "args number more than one".toList), [])
  else
    match u.getBucketNameByUrl ctx with
    | (_, some err) => (u.toCmdErr (some err), [])
    | (bucketName, none) =>
      match u.NewClient ctx with
      | .error err => (u.toCmdErr (some err), [])
      | .ok (client, privateKey) =>
        match client.DeleteBucket 0 with
        | .error err =>
          (none,
            headBucketEvents client bucketName
              ++ [Event.DeleteBucket bucketName privateKey,
                  Event.Printf ("delete bucket error: ".toList ++ err
                    ++ "\n".toList)])
        | .ok txnHash =>
          match waitTxnStatus client.toClient txnHash "DeleteBucket".toList with
          | (some err, evs, _) =>
            (u.toCmdErr (some err),
              headBucketEvents client bucketName
                ++ Event.DeleteBucket bucketName privateKey :: evs)
          | (none, evs, _) =>
            (none,
              headBucketEvents client bucketName
                ++ Event.DeleteBucket bucketName privateKey :: evs
                ++ [Event.Printf ("delete_bucket: ".toList ++ bucketName
                      ++ " \ntransaction hash: ".toList ++ txnHash
                      ++ "\n".toList)])

/-- `deleteGroup`: the returned error and the trace. -/
def deleteGroup (u : Utils) (ctx : CliContext) : GoError × List Event :=
  if ctx.Args.length ≠ 1 then
    (u.toCmdErr (some "args number more than one".toList), [])
  else
    match u.getGroupNameByUrl ctx with
    | (_, some err) => (u.toCmdErr (some err), [])
    | (groupName, none) =>
      match u.NewClient ctx with
      | .error err => (u.toCmdErr (some err), [])
      | .ok (client, privateKey) =>
        match client.DeleteGroup 0 with
        | .error err =>
          (u.toCmdErr (some err), [Event.DeleteGroup groupName privateKey])
        | .ok txnHash =>
          match waitTxnStatus client.toClient txnHash "DeleteGroup".toList with
          | (some err, evs, _) =>
            (u.toCmdErr (some err),
              Event.DeleteGroup groupName privateKey :: evs)
          | (none, evs, _) =>
            (none,
              Event.DeleteGroup groupName privateKey :: evs
                ++ [Event.Printf ("delete_group: ".toList ++ groupName
                      ++ " \ntransaction hash: ".toList ++ txnHash
                      ++ "\n".toList)])

/-- Lines 119-134 of `deleteObject`: the bucket name and the flag `deleteAll`
the command goes on with, or the error it returns. -/
def deleteObjectNames (u : Utils) (ctx : CliContext)
    (bucketName : GoString) (err : GoError) : Except GoError (GoString × Bool) :=
  match err with
  | none => .ok (bucketName, false)
  | some e =>
    if ctx.recursive then
      match u.getBucketNameByUrl ctx with
      | (_, some _) => .error (u.toCmdErr (some e))
      | (bucket, none) => .ok (bucket, true)
    else .error (u.toCmdErr (some e))

/-- `deleteObject`, its recursive branch run for at most `fuel` iterations of
the page loop: the returned error (`none` while that loop is still running)
and the trace. -/
def deleteObject (u : Utils) (fuel : Nat) (ctx : CliContext) :
    Option GoError × List Event :=
  if ctx.Args.length ≠ 1 then
    (some (u.toCmdErr (some "args number more than one".toList)), [])
  else
    match u.getObjAndBucketNames (ctx.Args.getD 0 []) with
    | (bucketName0, objectName, err) =>
      match deleteObjectNames u ctx bucketName0 err with
      | .error ret => (some ret, [])
      | .ok (bucketName, deleteAll) =>
        match u.NewClient ctx with
        | .error e => (some (u.toCmdErr (some e)), [])
        | .ok (client, privateKey) =>
          if ctx.recursive then
            let prefixName :=
              if !deleteAll then
                if !HasSuffix objectName "/".toList then objectName ++ "/".toList
                else objectName
              else []
            match deleteObjectByPage u.toCmdErr u.defaultMaxKey fuel
                client.toClient bucketName prefixName privateKey with
            | (none, evs) => (none, evs)
            | (some (some e), evs) => (some (u.toCmdErr (some e)), evs)
            | (some none, evs) => (some none, evs)
          else
            (some none,
              (deleteObjectAndWaitTxn client.toClient bucketName objectName
                privateKey).1)

/-- A service that refuses every call. -/
def refusingAdminClient : AdminClient where
  ListObjects := fun _ => .error "denied".toList
  DeleteObject := fun _ => .error "denied".toList
  WaitForTx := fun _ => .error "timeout".toList
  HeadBucket := fun _ => .error "not found".toList
  DeleteBucket := fun _ => .error "denied".toList
  DeleteGroup := fun _ => .error "denied".toList

/-- Helpers that hand errors on unchanged (`toCmdErr` returns its argument),
take the names from the parsers, and give the commands the client `client`. -/
def exampleUtils (client : AdminClient) : Utils where
  toCmdErr := id
  defaultMaxKey := 50
  getBucketNameByUrl := fun ctx =>
    ((ParseBucket (ctx.Args.getD 0 [])).getD [], none)
  getObjAndBucketNames := fun url =>
    (ParseBucketAndObject url).getD ([], [], some "panic".toList)
  getGroupNameByUrl := fun ctx => (ctx.Args.getD 0 [], none)
  NewClient := fun _ => .ok (client, "key".toList)

/-! ## `cmd/cmd_bucket.go`: the choice of the default storage provider -/

/-- The fields of `sptypes.StorageProvider` the commands read. -/
structure StorageProvider where
  OperatorAddress : GoString
  Endpoint : GoString

/-- How a block of statements inside a command ends: with a run-time panic,
with a `return` of the command (the returned error and the text printed
before), or by going on to the next statement with a value. -/
inductive Step (α : Type) where
  | panic
  | returned (err : GoError) (printed : List GoString)
  | continues (value : α)

/-- Lines 260-268 of `cmd_bucket.go`, in `createBucket`: the value of
`primarySpAddrStr` after the block, from the flag `--primarySP` and the answer
of `client.ListStorageProviders(c, false)`. -/
def createBucketPrimarySp (toCmdErr : GoError → GoError)
    (primarySpAddrStr : GoString)
    (listStorageProviders : Except GoString (List StorageProvider)) :
    Step GoString :=
  if primarySpAddrStr = [] then
    match listStorageProviders with
    | .error _ =>
      .returned (toCmdErr (some "fail to get primary sp address".toList)) []
    | .ok spInfo =>
      match spInfo[0]? with
      | none => .panic
      | some sp => .continues sp.OperatorAddress
  else .continues primarySpAddrStr

/-- Lines 432-441 of `cmd_bucket.go`, in `listBuckets`: the `Endpoint` passed
to `client.ListBuckets`, from the answer of
`client.ListStorageProviders(c, true)`. -/
def listBucketsEndpoint
    (listStorageProviders : Except GoString (List StorageProvider)) :
    Step GoString :=
  match listStorageProviders with
  | .error err =>
    .returned none
      ["fail to get SP info to list bucket: ".toList ++ err ++ "\n".toList]
  | .ok spInfo =>
    match spInfo[0]? with
    | none => .panic
    | some sp => .continues sp.Endpoint

/-! ## Lemmas on `Index`, `Contains` and slicing -/

theorem slash_toList : "/".toList = ['/'] := rfl

theorem Index_nonneg_iff (s substr : GoString) :
    0 ≤ Index s substr ↔ substr <:+: s := by
  induction s with
  | nil =>
    by_cases h : substr = []
    · simp [Index, h]
    · simp [Index, h]
  | cons c t ih =>
    rw [Index, List.infix_cons_iff]
    by_cases hp : substr.isPrefixOf (c :: t) = true
    · have hp2 : substr <+: c :: t := List.isPrefixOf_iff_prefix.mp hp
      simp [hp, hp2]
    · have hp2 : ¬ substr <+: c :: t := fun h => hp (List.isPrefixOf_iff_prefix.mpr h)
      simp only [hp, hp2, false_or, if_false, Bool.false_eq_true]
      rw [← ih]
      by_cases hr : Index t substr < 0
      · simp only [hr, if_true]; omega
      · simp only [hr, if_false]; omega

theorem Contains_iff (s substr : GoString) :
    Contains s substr = true ↔ substr <:+: s := by
  simp [Contains, Index_nonneg_iff]

theorem beforeSlash_cons_slash (t : GoString) : beforeSlash ('/' :: t) = [] := by
  simp [beforeSlash]

theorem beforeSlash_cons_ne (c : Char) (t : GoString) (hc : c ≠ '/') :
    beforeSlash (c :: t) = c :: beforeSlash t := by
  have hb : (c != '/') = true := by simp [hc]
  simp only [beforeSlash, List.takeWhile_cons, hb, if_true]

theorem afterSlash_cons_slash (t : GoString) : afterSlash ('/' :: t) = t := by
  simp [afterSlash]

theorem afterSlash_cons_ne (c : Char) (t : GoString) (hc : c ≠ '/') :
    afterSlash (c :: t) = afterSlash t := by
  have hb : (c != '/') = true := by simp [hc]
  simp only [afterSlash, List.dropWhile_cons, hb, if_true]

theorem mem_of_mem_cons_ne (c : Char) (t : GoString) (hc : c ≠ '/')
    (h : '/' ∈ c :: t) : '/' ∈ t := by
  rcases List.mem_cons.mp h with h1 | h1
  · exact absurd h1.symm hc
  · exact h1

theorem Index_slash (s : GoString) :
    Index s "/".toList
      = if '/' ∈ s then ((beforeSlash s).length : Int) else -1 := by
  rw [slash_toList]
  induction s with
  | nil => simp [Index]
  | cons c t ih =>
    rw [Index]
    by_cases hc : c = '/'
    · subst hc
      simp [beforeSlash_cons_slash, List.isPrefixOf]
    · have hc2 : ¬ '/' = c := fun h => hc h.symm
      have hp : List.isPrefixOf ['/'] (c :: t) = false := by
        simp [List.isPrefixOf, hc2]
      simp only [hp, Bool.false_eq_true, if_false, List.mem_cons, hc2, false_or]
      rw [ih, beforeSlash_cons_ne c t hc]
      by_cases hm : '/' ∈ t
      · simp only [hm, if_true, List.length_cons]
        have h0 : ¬ ((beforeSlash t).length : Int) < 0 := by omega
        simp only [h0, if_false]
        push_cast
        rfl
      · simp [hm]

theorem take_beforeSlash (s : GoString) :
    s.take (beforeSlash s).length = beforeSlash s := by
  induction s with
  | nil => simp [beforeSlash]
  | cons c t ih =>
    by_cases hc : c = '/'
    · subst hc; simp [beforeSlash_cons_slash]
    · simp [beforeSlash_cons_ne c t hc, ih]

theorem drop_beforeSlash (s : GoString) :
    s.drop ((beforeSlash s).length + 1) = afterSlash s := by
  induction s with
  | nil => simp [beforeSlash, afterSlash]
  | cons c t ih =>
    by_cases hc : c = '/'
    · subst hc; simp [beforeSlash_cons_slash, afterSlash_cons_slash]
    · simp [beforeSlash_cons_ne c t hc, afterSlash_cons_ne c t hc, ih]

theorem beforeSlash_length_lt (s : GoString) (h : '/' ∈ s) :
    (beforeSlash s).length < s.length := by
  induction s with
  | nil => simp at h
  | cons c t ih =>
    by_cases hc : c = '/'
    · subst hc; simp [beforeSlash_cons_slash]
    · have := ih (mem_of_mem_cons_ne c t hc h)
      simp [beforeSlash_cons_ne c t hc, this]

theorem slash_not_mem_beforeSlash (s : GoString) : '/' ∉ beforeSlash s := by
  intro h
  have := List.mem_takeWhile_imp h
  simp at this

theorem beforeSlash_append_afterSlash (s : GoString) (h : '/' ∈ s) :
    beforeSlash s ++ '/' :: afterSlash s = s := by
  induction s with
  | nil => simp at h
  | cons c t ih =>
    by_cases hc : c = '/'
    · subst hc; simp [beforeSlash_cons_slash, afterSlash_cons_slash]
    · have := ih (mem_of_mem_cons_ne c t hc h)
      simp [beforeSlash_cons_ne c t hc, afterSlash_cons_ne c t hc, this]

theorem sliceTo_beforeSlash (s : GoString) :
    sliceTo s ((beforeSlash s).length : Int) = some (beforeSlash s) := by
  have hle : (beforeSlash s).length ≤ s.length :=
    (List.takeWhile_prefix fun c => c != '/').length_le
  have hcond : 0 ≤ ((beforeSlash s).length : Int)
      ∧ ((beforeSlash s).length : Int) ≤ (s.length : Int) := by
    constructor <;> omega
  simp only [sliceTo, hcond, and_self, if_true, Int.toNat_ofNat, take_beforeSlash]

theorem sliceFrom_beforeSlash (s : GoString) (h : '/' ∈ s) :
    sliceFrom s (((beforeSlash s).length : Int) + 1) = some (afterSlash s) := by
  have hlt := beforeSlash_length_lt s h
  have hcond : 0 ≤ ((beforeSlash s).length : Int) + 1
      ∧ ((beforeSlash s).length : Int) + 1 ≤ (s.length : Int) := by
    constructor <;> omega
  have hnat : (((beforeSlash s).length : Int) + 1).toNat
      = (beforeSlash s).length + 1 := by omega
  simp only [sliceFrom, hcond, and_self, if_true, hnat, drop_beforeSlash]

/-! ## Lemmas on the URL parsers -/

theorem stripUrlPrefix_append (r : GoString) :
    stripUrlPrefix (urlPrefix ++ r) = some r := by
  have hc : Contains (urlPrefix ++ r) urlPrefix = true :=
    (Contains_iff _ _).mpr (List.infix_append [] urlPrefix r)
  have hlen : urlPrefix.length = 10 := rfl
  simp [stripUrlPrefix, hc, sliceFrom, hlen]

theorem stripUrlPrefix_eq_self (r : GoString) (h : ¬ urlPrefix <:+: r) :
    stripUrlPrefix r = some r := by
  have hc : Contains r urlPrefix = false := by
    rw [← Bool.not_eq_true, Contains_iff]; exact h
  simp [stripUrlPrefix, hc]

theorem stripUrlPrefix_total (s : GoString) :
    stripUrlPrefix s
      = some (if urlPrefix <:+: s then s.drop urlPrefix.length else s) := by
  by_cases h : urlPrefix <:+: s
  · have hc : Contains s urlPrefix = true := (Contains_iff _ _).mpr h
    have hle : urlPrefix.length ≤ s.length := h.length_le
    have hcond : (0 : Int) ≤ (urlPrefix.length : Int)
        ∧ (urlPrefix.length : Int) ≤ (s.length : Int) := by
      constructor <;> omega
    simp only [stripUrlPrefix, hc, if_true, sliceFrom, hcond, and_self, h,
      Int.toNat_ofNat]
  · simp [stripUrlPrefix_eq_self s h, h]

theorem ParseBucketAndObject_of_strip (s r : GoString)
    (h : stripUrlPrefix s = some r) :
    ParseBucketAndObject s
      = if '/' ∈ r then some (beforeSlash r, afterSlash r, none)
        else some ([], [],
          some "url not right, can not parse bucket name and object name".toList) := by
  by_cases hm : '/' ∈ r
  · have hi : ¬ ((beforeSlash r).length : Int) ≤ -1 := by omega
    simp only [ParseBucketAndObject, h, Option.some_bind, Index_slash, hm, if_true,
      hi, if_false, sliceTo_beforeSlash, sliceFrom_beforeSlash r hm]
  · have hi : (-1 : Int) ≤ -1 := le_refl _
    simp only [ParseBucketAndObject, h, Option.some_bind, Index_slash, hm, if_false,
      hi, if_true]

theorem ParseBucketAndPrefix_of_strip (s r : GoString)
    (h : stripUrlPrefix s = some r) :
    ParseBucketAndPrefix s
      = if '/' ∈ r then some (beforeSlash r, afterSlash r, none)
        else some (r, [], none) := by
  by_cases hm : '/' ∈ r
  · have hi : ¬ ((beforeSlash r).length : Int) ≤ -1 := by omega
    simp only [ParseBucketAndPrefix, h, Option.some_bind, Index_slash, hm, if_true,
      hi, if_false, sliceTo_beforeSlash, sliceFrom_beforeSlash r hm]
  · have hi : (-1 : Int) ≤ -1 := le_refl _
    simp only [ParseBucketAndPrefix, h, Option.some_bind, Index_slash, hm, if_false,
      hi, if_true]

theorem ParseBucket_of_strip (s r : GoString) (h : stripUrlPrefix s = some r) :
    ParseBucket s = some r := by
  simp [ParseBucket, h, SplitN, genSplitLoop]

/-! ## Lemmas on `waitTxnStatus` -/

theorem submittedError_ne_failedError (txnInfo txnHash err : GoString) (code : Nat) :
    submittedError txnInfo txnHash err ≠ failedError txnInfo txnHash code := by
  intro h
  simp only [submittedError, failedError, List.append_assoc,
    List.append_cancel_left_eq] at h
  have h2 := congrArg (fun l => l.get? 1) h
  simp [String.toList] at h2

theorem waitTxnStatus_snd (cli : Client) (txnHash txnInfo : GoString) :
    (waitTxnStatus cli txnHash txnInfo).2
      = ([Event.WaitForTx txnHash], cli.afterWaitForTx) := by
  unfold waitTxnStatus
  cases cli.WaitForTx 0 with
  | error err => rfl
  | ok resp =>
    by_cases hc : resp.TxResult.Code = 0
    · simp [hc]
    · simp [hc]

/-! ## Lemmas on traces -/

theorem deletedNames_append (a b : List Event) :
    deletedNames (a ++ b) = deletedNames a ++ deletedNames b := by
  induction a with
  | nil => rfl
  | cons e t ih => cases e <;> simp [deletedNames, ih]

theorem listAndDeleteCalls_append (a b : List Event) :
    listAndDeleteCalls (a ++ b) = listAndDeleteCalls a ++ listAndDeleteCalls b := by
  induction a with
  | nil => rfl
  | cons e t ih => cases e <;> simp [listAndDeleteCalls, ih]

theorem listCallCount_append (a b : List Event) :
    listCallCount (a ++ b) = listCallCount a + listCallCount b := by
  induction a with
  | nil => simp [listCallCount]
  | cons e t ih =>
    rw [List.cons_append]
    cases e
    all_goals simp only [listCallCount, ih]
    omega

theorem deletedNames_cons_ListObjects (b : GoString) (o : ListObjectsOptions)
    (t : List Event) :
    deletedNames (Event.ListObjects b o :: t) = deletedNames t := rfl

theorem listAndDeleteCalls_cons_ListObjects (b : GoString)
    (o : ListObjectsOptions) (t : List Event) :
    listAndDeleteCalls (Event.ListObjects b o :: t)
      = Event.ListObjects b o :: listAndDeleteCalls t := rfl

theorem listCallCount_cons_ListObjects (b : GoString) (o : ListObjectsOptions)
    (t : List Event) :
    listCallCount (Event.ListObjects b o :: t) = listCallCount t + 1 := rfl

/-! ## Lemmas on `deleteObjectAndWaitTxn` and the loop over one page -/

/-- What one call of `deleteObjectAndWaitTxn` leaves in the trace and in the
script, whatever the outcome of the deletion. -/
theorem deleteObjectAndWaitTxn_facts (cli : Client)
    (bucketName objectName privateKey : GoString) :
    deletedNames (deleteObjectAndWaitTxn cli bucketName objectName privateKey).1
        = [objectName]
      ∧ listAndDeleteCalls
          (deleteObjectAndWaitTxn cli bucketName objectName privateKey).1
        = [Event.DeleteObject bucketName objectName privateKey]
      ∧ listCallCount
          (deleteObjectAndWaitTxn cli bucketName objectName privateKey).1 = 0
      ∧ (deleteObjectAndWaitTxn cli bucketName objectName privateKey).2.ListObjects
        = cli.ListObjects := by
  unfold deleteObjectAndWaitTxn
  cases cli.DeleteObject 0 with
  | error err =>
    simp [deletedNames, listAndDeleteCalls, listCallCount, Client.afterDeleteObject]
  | ok txnHash =>
    have hw := waitTxnStatus_snd cli.afterDeleteObject txnHash "DeleteObject".toList
    rcases hr : waitTxnStatus cli.afterDeleteObject txnHash "DeleteObject".toList
      with ⟨err, evs, cli1⟩
    rw [hr] at hw
    simp only [Prod.mk.injEq] at hw
    obtain ⟨rfl, rfl⟩ := hw
    dsimp only
    rw [hr]
    cases err <;>
      simp [deletedNames, listAndDeleteCalls, listCallCount,
        Client.afterDeleteObject, Client.afterWaitForTx]

/-- What the loop over the objects of one page leaves in the trace and in the
script, whatever the outcomes of the deletions. -/
theorem deleteObjects_facts (bucketName privateKey : GoString) (cli : Client)
    (objects : List ObjectMeta) :
    deletedNames (deleteObjects bucketName privateKey cli objects).1
        = objects.map (fun o => o.ObjectInfo.ObjectName)
      ∧ listAndDeleteCalls (deleteObjects bucketName privateKey cli objects).1
        = objects.map
            (fun o => Event.DeleteObject bucketName o.ObjectInfo.ObjectName privateKey)
      ∧ listCallCount (deleteObjects bucketName privateKey cli objects).1 = 0
      ∧ (deleteObjects bucketName privateKey cli objects).2.ListObjects
        = cli.ListObjects := by
  induction objects generalizing cli with
  | nil => simp [deleteObjects, deletedNames, listAndDeleteCalls, listCallCount]
  | cons o rest ih =>
    obtain ⟨h1, h2, h3, h4⟩ :=
      deleteObjectAndWaitTxn_facts cli bucketName o.ObjectInfo.ObjectName privateKey
    obtain ⟨i1, i2, i3, i4⟩ :=
      ih (deleteObjectAndWaitTxn cli bucketName o.ObjectInfo.ObjectName privateKey).2
    simp only [deleteObjects, deletedNames_append, listAndDeleteCalls_append,
      listCallCount_append, h1, h2, h3, h4, i1, i2, i3, i4, List.map_cons,
      List.singleton_append, and_self]

/-! ## Lemmas on the page loop -/

/-- One iteration of the loop whose page fetch succeeds. -/
theorem deleteObjectByPageLoop_ok (toCmdErr : GoError → GoError)
    (defaultMaxKey : Nat) (bucketName prefixName privateKey : GoString)
    (fuel : Nat) (cli : Client) (token : GoString) (page : ListObjectsResult)
    (h : cli.ListObjects 0 = .ok page) :
    deleteObjectByPageLoop toCmdErr defaultMaxKey bucketName prefixName
        privateKey (fuel + 1) cli token
      = if page.IsTruncated = false then
          (some none,
            Event.ListObjects bucketName ⟨false, defaultMaxKey, token, prefixName⟩
              :: (deleteObjects bucketName privateKey cli.afterListObjects
                    page.Objects).1)
        else
          ((deleteObjectByPageLoop toCmdErr defaultMaxKey bucketName prefixName
              privateKey fuel
              (deleteObjects bucketName privateKey cli.afterListObjects
                page.Objects).2 page.NextContinuationToken).1,
            Event.ListObjects bucketName ⟨false, defaultMaxKey, token, prefixName⟩
              :: (deleteObjects bucketName privateKey cli.afterListObjects
                    page.Objects).1
              ++ (deleteObjectByPageLoop toCmdErr defaultMaxKey bucketName
                    prefixName privateKey fuel
                    (deleteObjects bucketName privateKey cli.afterListObjects
                      page.Objects).2 page.NextContinuationToken).2) := by
  rw [deleteObjectByPageLoop]
  simp only [h]
  cases page.IsTruncated <;> simp

/-- One iteration of the loop whose page fetch fails. -/
theorem deleteObjectByPageLoop_error (toCmdErr : GoError → GoError)
    (defaultMaxKey : Nat) (bucketName prefixName privateKey : GoString)
    (fuel : Nat) (cli : Client) (token : GoString) (err : GoString)
    (h : cli.ListObjects 0 = .error err) :
    deleteObjectByPageLoop toCmdErr defaultMaxKey bucketName prefixName
        privateKey (fuel + 1) cli token
      = (some (toCmdErr (some err)),
          [Event.ListObjects bucketName
            ⟨false, defaultMaxKey, token, prefixName⟩]) := by
  rw [deleteObjectByPageLoop]
  simp only [h]

/-- The script after a page has been fetched and its objects processed
serves the pages that followed. -/
theorem ListObjects_after_page (bucketName privateKey : GoString) (cli : Client)
    (objects : List ObjectMeta) (k : Nat) :
    (deleteObjects bucketName privateKey cli.afterListObjects objects).2.ListObjects k
      = cli.ListObjects (k + 1) := by
  rw [(deleteObjects_facts bucketName privateKey cli.afterListObjects objects).2.2.2]
  rfl

theorem namesOfPages_shift (cli cli1 : Client)
    (h : ∀ k, cli1.ListObjects k = cli.ListObjects (k + 1)) (m : Nat) :
    namesOfPages cli (m + 1) = pageNames cli 0 ++ namesOfPages cli1 m := by
  induction m with
  | zero => simp [namesOfPages]
  | succ m ih =>
    have hp : pageNames cli1 m = pageNames cli (m + 1) := by
      simp only [pageNames, h m]
    rw [namesOfPages, ih, namesOfPages, hp, List.append_assoc]

theorem pageNames_of_ok (cli : Client) (k : Nat) (page : ListObjectsResult)
    (h : cli.ListObjects k = .ok page) :
    pageNames cli k = page.Objects.map (fun o => o.ObjectInfo.ObjectName) := by
  simp only [pageNames, h]

/-- A listing whose first non-truncated page is page `n` is processed to its
end within `n + 1` iterations. -/
theorem deleteObjectByPageLoop_complete (toCmdErr : GoError → GoError)
    (defaultMaxKey : Nat) (bucketName prefixName privateKey : GoString) (n : Nat) :
    ∀ (cli : Client) (token : GoString) (fuel : Nat),
      (∀ j, j < n → ∃ page, cli.ListObjects j = .ok page ∧ page.IsTruncated = true) →
      (∃ page, cli.ListObjects n = .ok page ∧ page.IsTruncated = false) →
      n < fuel →
      (deleteObjectByPageLoop toCmdErr defaultMaxKey bucketName prefixName
          privateKey fuel cli token).1 = some none
        ∧ deletedNames (deleteObjectByPageLoop toCmdErr defaultMaxKey bucketName
            prefixName privateKey fuel cli token).2 = namesOfPages cli (n + 1)
        ∧ listCallCount (deleteObjectByPageLoop toCmdErr defaultMaxKey bucketName
            prefixName privateKey fuel cli token).2 = n + 1 := by
  induction n with
  | zero =>
    intro cli token fuel _ hlast hfuel
    obtain ⟨page, hp, ht⟩ := hlast
    obtain ⟨f, rfl⟩ : ∃ f, fuel = f + 1 := ⟨fuel - 1, by omega⟩
    rw [deleteObjectByPageLoop_ok _ _ _ _ _ _ _ _ _ hp, if_pos ht]
    obtain ⟨d1, _, d3, _⟩ :=
      deleteObjects_facts bucketName privateKey cli.afterListObjects page.Objects
    simp [deletedNames, listCallCount, d1, d3, namesOfPages, pageNames_of_ok cli 0 page hp]
  | succ n ih =>
    intro cli token fuel hpages hlast hfuel
    obtain ⟨page, hp, ht⟩ := hpages 0 (Nat.succ_pos n)
    obtain ⟨f, rfl⟩ : ∃ f, fuel = f + 1 := ⟨fuel - 1, by omega⟩
    have hnt : ¬ page.IsTruncated = false := by simp [ht]
    rw [deleteObjectByPageLoop_ok _ _ _ _ _ _ _ _ _ hp, if_neg hnt]
    have hshift := ListObjects_after_page bucketName privateKey cli page.Objects
    obtain ⟨d1, _, d3, _⟩ :=
      deleteObjects_facts bucketName privateKey cli.afterListObjects page.Objects
    have hpages1 : ∀ j, j < n →
        ∃ pg, (deleteObjects bucketName privateKey cli.afterListObjects
          page.Objects).2.ListObjects j = .ok pg ∧ pg.IsTruncated = true := by
      intro j hj
      rw [hshift j]
      exact hpages (j + 1) (by omega)
    have hlast1 : ∃ pg, (deleteObjects bucketName privateKey cli.afterListObjects
        page.Objects).2.ListObjects n = .ok pg ∧ pg.IsTruncated = false := by
      rw [hshift n]
      exact hlast
    obtain ⟨i1, i2, i3⟩ :=
      ih _ page.NextContinuationToken f hpages1 hlast1 (by omega)
    refine ⟨i1, ?_, ?_⟩
    · dsimp only
      rw [namesOfPages_shift cli _ hshift (n + 1), List.cons_append,
        deletedNames_cons_ListObjects,
        deletedNames_append, d1, i2, pageNames_of_ok cli 0 page hp]
    · dsimp only
      rw [List.cons_append, listCallCount_cons_ListObjects, listCallCount_append,
        d3, i3]
      omega

/-- A listing whose page `k` is the first failed fetch: the loop returns the
command error of that failure, and the failed call is the last event. -/
theorem deleteObjectByPageLoop_halts (toCmdErr : GoError → GoError)
    (defaultMaxKey : Nat) (bucketName prefixName privateKey : GoString)
    (err : GoString) (k : Nat) :
    ∀ (cli : Client) (token : GoString) (fuel : Nat),
      (∀ j, j < k → ∃ page, cli.ListObjects j = .ok page ∧ page.IsTruncated = true) →
      cli.ListObjects k = .error err →
      k < fuel →
      (deleteObjectByPageLoop toCmdErr defaultMaxKey bucketName prefixName
          privateKey fuel cli token).1 = some (toCmdErr (some err))
        ∧ (∃ pre opts, (deleteObjectByPageLoop toCmdErr defaultMaxKey bucketName
            prefixName privateKey fuel cli token).2
              = pre ++ [Event.ListObjects bucketName opts])
        ∧ listCallCount (deleteObjectByPageLoop toCmdErr defaultMaxKey bucketName
            prefixName privateKey fuel cli token).2 = k + 1
        ∧ deletedNames (deleteObjectByPageLoop toCmdErr defaultMaxKey bucketName
            prefixName privateKey fuel cli token).2 = namesOfPages cli k := by
  induction k with
  | zero =>
    intro cli token fuel _ hfail hfuel
    obtain ⟨f, rfl⟩ : ∃ f, fuel = f + 1 := ⟨fuel - 1, by omega⟩
    rw [deleteObjectByPageLoop_error _ _ _ _ _ _ _ _ _ hfail]
    exact ⟨rfl, ⟨[], _, rfl⟩, rfl, rfl⟩
  | succ k ih =>
    intro cli token fuel hpages hfail hfuel
    obtain ⟨page, hp, ht⟩ := hpages 0 (Nat.succ_pos k)
    obtain ⟨f, rfl⟩ : ∃ f, fuel = f + 1 := ⟨fuel - 1, by omega⟩
    have hnt : ¬ page.IsTruncated = false := by simp [ht]
    rw [deleteObjectByPageLoop_ok _ _ _ _ _ _ _ _ _ hp, if_neg hnt]
    have hshift := ListObjects_after_page bucketName privateKey cli page.Objects
    obtain ⟨d1, _, d3, _⟩ :=
      deleteObjects_facts bucketName privateKey cli.afterListObjects page.Objects
    have hpages1 : ∀ j, j < k →
        ∃ pg, (deleteObjects bucketName privateKey cli.afterListObjects
          page.Objects).2.ListObjects j = .ok pg ∧ pg.IsTruncated = true := by
      intro j hj
      rw [hshift j]
      exact hpages (j + 1) (by omega)
    have hfail1 : (deleteObjects bucketName privateKey cli.afterListObjects
        page.Objects).2.ListObjects k = .error err := by
      rw [hshift k]
      exact hfail
    obtain ⟨i1, ⟨pre, opts, i2⟩, i3, i4⟩ :=
      ih _ page.NextContinuationToken f hpages1 hfail1 (by omega)
    refine ⟨i1,
      ⟨Event.ListObjects bucketName ⟨false, defaultMaxKey, token, prefixName⟩
        :: ((deleteObjects bucketName privateKey cli.afterListObjects
              page.Objects).1 ++ pre), opts, ?_⟩, ?_, ?_⟩
    · simp only [i2, List.cons_append, List.append_assoc]
    · dsimp only
      rw [List.cons_append, listCallCount_cons_ListObjects, listCallCount_append,
        d3, i3]
      omega
    · dsimp only
      rw [namesOfPages_shift cli _ hshift k, List.cons_append,
        deletedNames_cons_ListObjects,
        deletedNames_append, d1, i4, pageNames_of_ok cli 0 page hp]

/-- Two services that list alike make the loop return alike and make the same
`ListObjects` and `DeleteObject` calls, whatever their other answers. -/
theorem deleteObjectByPageLoop_calls_eq (toCmdErr : GoError → GoError)
    (defaultMaxKey : Nat) (bucketName prefixName privateKey : GoString)
    (fuel : Nat) :
    ∀ (c1 c2 : Client) (token : GoString),
      c1.ListObjects = c2.ListObjects →
      (deleteObjectByPageLoop toCmdErr defaultMaxKey bucketName prefixName
          privateKey fuel c1 token).1
        = (deleteObjectByPageLoop toCmdErr defaultMaxKey bucketName prefixName
          privateKey fuel c2 token).1
      ∧ listAndDeleteCalls (deleteObjectByPageLoop toCmdErr defaultMaxKey
          bucketName prefixName privateKey fuel c1 token).2
        = listAndDeleteCalls (deleteObjectByPageLoop toCmdErr defaultMaxKey
          bucketName prefixName privateKey fuel c2 token).2 := by
  induction fuel with
  | zero => intro c1 c2 token _; exact ⟨rfl, rfl⟩
  | succ f ih =>
    intro c1 c2 token hsame
    cases h1 : c1.ListObjects 0 with
    | error err =>
      have h2 : c2.ListObjects 0 = .error err := by rw [← hsame]; exact h1
      rw [deleteObjectByPageLoop_error _ _ _ _ _ _ _ _ _ h1,
        deleteObjectByPageLoop_error _ _ _ _ _ _ _ _ _ h2]
      exact ⟨rfl, rfl⟩
    | ok page =>
      have h2 : c2.ListObjects 0 = .ok page := by rw [← hsame]; exact h1
      rw [deleteObjectByPageLoop_ok _ _ _ _ _ _ _ _ _ h1,
        deleteObjectByPageLoop_ok _ _ _ _ _ _ _ _ _ h2]
      obtain ⟨_, a2, _, _⟩ :=
        deleteObjects_facts bucketName privateKey c1.afterListObjects page.Objects
      obtain ⟨_, b2, _, _⟩ :=
        deleteObjects_facts bucketName privateKey c2.afterListObjects page.Objects
      by_cases ht : page.IsTruncated = false
      · rw [if_pos ht, if_pos ht]
        dsimp only
        rw [listAndDeleteCalls_cons_ListObjects, listAndDeleteCalls_cons_ListObjects,
          a2, b2]
        exact ⟨rfl, rfl⟩
      · rw [if_neg ht, if_neg ht]
        have hnext :
            (deleteObjects bucketName privateKey c1.afterListObjects
              page.Objects).2.ListObjects
              = (deleteObjects bucketName privateKey c2.afterListObjects
              page.Objects).2.ListObjects := by
          funext j
          rw [ListObjects_after_page, ListObjects_after_page, hsame]
        obtain ⟨i1, i2⟩ := ih _ _ page.NextContinuationToken hnext
        refine ⟨i1, ?_⟩
        dsimp only
        rw [List.cons_append, List.cons_append,
          listAndDeleteCalls_cons_ListObjects, listAndDeleteCalls_cons_ListObjects,
          listAndDeleteCalls_append, listAndDeleteCalls_append, a2, b2, i2]

/-- While every page fetch succeeds the loop never returns an error, and it
returns nil as soon as a page that is not truncated lies within the fuel. -/
theorem deleteObjectByPageLoop_ret_of_ok (toCmdErr : GoError → GoError)
    (defaultMaxKey : Nat) (bucketName prefixName privateKey : GoString)
    (fuel : Nat) :
    ∀ (cli : Client) (token : GoString),
      (∀ j, ∃ page, cli.ListObjects j = .ok page) →
      ((deleteObjectByPageLoop toCmdErr defaultMaxKey bucketName prefixName
          privateKey fuel cli token).1 = none
        ∨ (deleteObjectByPageLoop toCmdErr defaultMaxKey bucketName prefixName
          privateKey fuel cli token).1 = some none)
      ∧ ∀ n, n < fuel →
          (∃ page, cli.ListObjects n = .ok page ∧ page.IsTruncated = false) →
          (deleteObjectByPageLoop toCmdErr defaultMaxKey bucketName prefixName
            privateKey fuel cli token).1 = some none := by
  induction fuel with
  | zero =>
    intro cli token _
    exact ⟨Or.inl rfl, fun n hn => absurd hn (Nat.not_lt_zero n)⟩
  | succ f ih =>
    intro cli token hok
    obtain ⟨page, hp⟩ := hok 0
    rw [deleteObjectByPageLoop_ok _ _ _ _ _ _ _ _ _ hp]
    by_cases ht : page.IsTruncated = false
    · rw [if_pos ht]
      exact ⟨Or.inr rfl, fun _ _ _ => rfl⟩
    · rw [if_neg ht]
      have hshift := ListObjects_after_page bucketName privateKey cli page.Objects
      have hok1 : ∀ j, ∃ pg, (deleteObjects bucketName privateKey
          cli.afterListObjects page.Objects).2.ListObjects j = .ok pg := by
        intro j
        rw [hshift j]
        exact hok (j + 1)
      obtain ⟨i1, i2⟩ := ih _ page.NextContinuationToken hok1
      refine ⟨i1, ?_⟩
      intro n hn hlast
      cases n with
      | zero =>
        obtain ⟨pg, hpg, htr⟩ := hlast
        rw [hp] at hpg
        cases hpg
        exact absurd htr ht
      | succ m =>
        apply i2 m (by omega)
        rw [hshift m]
        exact hlast

/-! ## Paged deletion: C1 to C3 -/

/-- C1: when the pages `0, ..., n - 1` of the listing are fetched with
success and are truncated, and page `n` is fetched with success and is not
truncated, `deleteObjectByPage` returns (nil) once given `n + 1` iterations or
more, having made `n + 1` `ListObjects` calls, and the object names it passed
to `DeleteObject` are, in call order, the names of the pages `0, ..., n`
concatenated in page order and item order.  This holds whatever the answers to
`DeleteObject` and `WaitForTx` are. -/
theorem deleteObjectByPage_deletes_each_listed_object_once
    (toCmdErr : GoError → GoError) (defaultMaxKey : Nat) (cli : Client)
    (bucketName prefixName privateKey : GoString) (n fuel : Nat)
    (hpages : ∀ j, j < n →
      ∃ page, cli.ListObjects j = .ok page ∧ page.IsTruncated = true)
    (hlast : ∃ page, cli.ListObjects n = .ok page ∧ page.IsTruncated = false)
    (hfuel : n < fuel) :
    (deleteObjectByPage toCmdErr defaultMaxKey fuel cli bucketName prefixName
        privateKey).1 = some none
      ∧ deletedNames (deleteObjectByPage toCmdErr defaultMaxKey fuel cli
          bucketName prefixName privateKey).2 = namesOfPages cli (n + 1)
      ∧ listCallCount (deleteObjectByPage toCmdErr defaultMaxKey fuel cli
          bucketName prefixName privateKey).2 = n + 1 :=
  deleteObjectByPageLoop_complete toCmdErr defaultMaxKey bucketName prefixName
    privateKey n cli [] fuel hpages hlast hfuel

/-- Witness of C1: the `photos/` listing of two pages on a service that
refuses every deletion; all three names are passed to `DeleteObject`. -/
theorem deleteObjectByPage_deletes_each_listed_object_once_witness :
    (∃ page, photosClientAllFail.ListObjects 1 = .ok page
        ∧ page.IsTruncated = false)
      ∧ deletedNames (deleteObjectByPage id 50 2 photosClientAllFail
          "bkt".toList "photos/".toList "key".toList).2
        = namesOfPages photosClientAllFail 2
      ∧ namesOfPages photosClientAllFail 2
        = ["photos/a.png".toList, "photos/b.png".toList, "photos/c.png".toList] :=
  ⟨⟨photosPage1, rfl, rfl⟩,
    (deleteObjectByPage_deletes_each_listed_object_once id 50 photosClientAllFail
      "bkt".toList "photos/".toList "key".toList 1 2
      (fun j hj => match j, hj with
        | 0, _ => ⟨photosPage0, rfl, rfl⟩)
      ⟨photosPage1, rfl, rfl⟩ (by decide)).2.1,
    by decide⟩

/-- C2: let two services give the same answers to `ListObjects`, all of them
successes, and any answers at all to `DeleteObject` and `WaitForTx`.  Then, for
every number of iterations, `deleteObjectByPage` is in the same state on both
(still running, or returned with the same value), the sequence of its
`ListObjects` and `DeleteObject` calls is the same on both, it has not returned
an error, and it has returned nil as soon as a page that is not truncated lies
within the iterations run. -/
theorem deleteObjectByPage_calls_independent_of_delete_outcomes
    (toCmdErr : GoError → GoError) (defaultMaxKey : Nat) (c1 c2 : Client)
    (bucketName prefixName privateKey : GoString) (fuel : Nat)
    (hsame : c1.ListObjects = c2.ListObjects)
    (hok : ∀ j, ∃ page, c1.ListObjects j = .ok page) :
    (deleteObjectByPage toCmdErr defaultMaxKey fuel c1 bucketName prefixName
        privateKey).1
      = (deleteObjectByPage toCmdErr defaultMaxKey fuel c2 bucketName prefixName
        privateKey).1
      ∧ listAndDeleteCalls (deleteObjectByPage toCmdErr defaultMaxKey fuel c1
          bucketName prefixName privateKey).2
        = listAndDeleteCalls (deleteObjectByPage toCmdErr defaultMaxKey fuel c2
          bucketName prefixName privateKey).2
      ∧ ((deleteObjectByPage toCmdErr defaultMaxKey fuel c1 bucketName prefixName
          privateKey).1 = none
        ∨ (deleteObjectByPage toCmdErr defaultMaxKey fuel c1 bucketName prefixName
          privateKey).1 = some none)
      ∧ ∀ n, n < fuel →
          (∃ page, c1.ListObjects n = .ok page ∧ page.IsTruncated = false) →
          (deleteObjectByPage toCmdErr defaultMaxKey fuel c1 bucketName prefixName
            privateKey).1 = some none :=
  ⟨(deleteObjectByPageLoop_calls_eq toCmdErr defaultMaxKey bucketName prefixName
      privateKey fuel c1 c2 [] hsame).1,
    (deleteObjectByPageLoop_calls_eq toCmdErr defaultMaxKey bucketName prefixName
      privateKey fuel c1 c2 [] hsame).2,
    (deleteObjectByPageLoop_ret_of_ok toCmdErr defaultMaxKey bucketName prefixName
      privateKey fuel c1 [] hok).1,
    (deleteObjectByPageLoop_ret_of_ok toCmdErr defaultMaxKey bucketName prefixName
      privateKey fuel c1 [] hok).2⟩

/-- Witness of C2: the `photos/` listing on a service where every deletion
succeeds and on one where every deletion is refused. -/
theorem deleteObjectByPage_calls_independent_of_delete_outcomes_witness :
    photosClient.ListObjects = photosClientAllFail.ListObjects
      ∧ (deleteObjectByPage id 50 2 photosClientAllFail "bkt".toList
          "photos/".toList "key".toList).1 = some none
      ∧ listAndDeleteCalls (deleteObjectByPage id 50 2 photosClient "bkt".toList
          "photos/".toList "key".toList).2
        = listAndDeleteCalls (deleteObjectByPage id 50 2 photosClientAllFail
          "bkt".toList "photos/".toList "key".toList).2 :=
  ⟨rfl, by decide,
    (deleteObjectByPage_calls_independent_of_delete_outcomes id 50 photosClient
      photosClientAllFail "bkt".toList "photos/".toList "key".toList 2 rfl
      (fun j => match j with
        | 0 => ⟨photosPage0, rfl⟩
        | _ + 1 => ⟨photosPage1, rfl⟩)).2.1⟩

/-- C3, as stated, fails when `toCmdErr` gives nil: with a `toCmdErr` that
returns nil for every error, the run whose second fetch fails returns nil, as
a run that ends well does.  What `deleteObjectByPage` returns at a failed
fetch is `toCmdErr(err)`, and `toCmdErr` is declared in `utils.go`, outside
the sources at hand. -/
theorem deleteObjectByPage_failed_fetch_returns_what_toCmdErr_gives :
    brokenListingClient.ListObjects 1 = .error "connection refused".toList
      ∧ (deleteObjectByPage (fun _ => none) 50 9 brokenListingClient
          "bkt".toList "photos/".toList "key".toList).1 = some none
      ∧ (deleteObjectByPage (fun _ => none) 50 9 photosClient
          "bkt".toList "photos/".toList "key".toList).1 = some none :=
  ⟨rfl, by decide, by decide⟩

/-- C3, amended: when the pages `0, ..., k - 1` are fetched with success and
are truncated and the fetch of page `k` fails with `err`, `deleteObjectByPage`
halts once given `k + 1` iterations or more and returns `toCmdErr(err)`, which
is a non-nil error exactly when `toCmdErr` gives one for `err`; the trace then
holds `k + 1` `ListObjects` calls and ends with one, so that nothing is called
after the failed fetch; and the names passed to `DeleteObject` are those of
the pages `0, ..., k - 1`. -/
theorem deleteObjectByPage_halts_on_failed_fetch
    (toCmdErr : GoError → GoError) (defaultMaxKey : Nat) (cli : Client)
    (bucketName prefixName privateKey err : GoString) (k fuel : Nat)
    (hpages : ∀ j, j < k →
      ∃ page, cli.ListObjects j = .ok page ∧ page.IsTruncated = true)
    (hfail : cli.ListObjects k = .error err)
    (hfuel : k < fuel) :
    (deleteObjectByPage toCmdErr defaultMaxKey fuel cli bucketName prefixName
        privateKey).1 = some (toCmdErr (some err))
      ∧ ((deleteObjectByPage toCmdErr defaultMaxKey fuel cli bucketName
          prefixName privateKey).1 ≠ some none ↔ toCmdErr (some err) ≠ none)
      ∧ (∃ pre opts, (deleteObjectByPage toCmdErr defaultMaxKey fuel cli
          bucketName prefixName privateKey).2
            = pre ++ [Event.ListObjects bucketName opts])
      ∧ listCallCount (deleteObjectByPage toCmdErr defaultMaxKey fuel cli
          bucketName prefixName privateKey).2 = k + 1
      ∧ deletedNames (deleteObjectByPage toCmdErr defaultMaxKey fuel cli
          bucketName prefixName privateKey).2 = namesOfPages cli k := by
  obtain ⟨h1, h2, h3, h4⟩ :=
    deleteObjectByPageLoop_halts toCmdErr defaultMaxKey bucketName prefixName
      privateKey err k cli [] fuel hpages hfail hfuel
  refine ⟨h1, ?_, h2, h3, h4⟩
  unfold deleteObjectByPage
  rw [h1]
  constructor
  · intro hn hc
    exact hn (congrArg some hc)
  · intro hc hn
    exact hc (Option.some.inj hn)

/-- Witness of the amended C3: the second fetch fails after a first page of
two objects; with a `toCmdErr` that hands the error on, the run returns it. -/
theorem deleteObjectByPage_halts_on_failed_fetch_witness :
    brokenListingClient.ListObjects 1 = .error "connection refused".toList
      ∧ (deleteObjectByPage id 50 9 brokenListingClient "bkt".toList
          "photos/".toList "key".toList).1
        = some (some "connection refused".toList)
      ∧ listCallCount (deleteObjectByPage id 50 9 brokenListingClient
          "bkt".toList "photos/".toList "key".toList).2 = 2
      ∧ deletedNames (deleteObjectByPage id 50 9 brokenListingClient "bkt".toList
          "photos/".toList "key".toList).2
        = namesOfPages brokenListingClient 1
      ∧ namesOfPages brokenListingClient 1
        = ["photos/a.png".toList, "photos/b.png".toList] :=
  have h := deleteObjectByPage_halts_on_failed_fetch id 50 brokenListingClient
    "bkt".toList "photos/".toList "key".toList "connection refused".toList 1 9
    (fun j hj => match j, hj with
      | 0, _ => ⟨photosPage0, rfl, rfl⟩)
    rfl (by decide)
  ⟨rfl, h.1, h.2.2.2.1, h.2.2.2.2, by decide⟩

/-! ## Transaction confirmation: C4 to C6 -/

/-- C4, as stated, fails: on a service that includes the transaction with
result code 5, `waitTxnStatus` returns the non-nil error
`the DeleteObject txn: 0xAB has failed with response code: 5`. -/
theorem waitTxnStatus_code_five_is_an_error :
    rejectingClient.WaitForTx 0 = .ok ⟨⟨5⟩⟩
      ∧ (waitTxnStatus rejectingClient "0xAB".toList "DeleteObject".toList).1
        = some "the DeleteObject txn: 0xAB has failed with response code: 5".toList
      ∧ (waitTxnStatus rejectingClient "0xAB".toList "DeleteObject".toList).1
        ≠ none :=
  ⟨rfl, by decide, by decide⟩

/-- C4, amended: when the `WaitForTx` query succeeds with a non-zero result
code, `waitTxnStatus` returns a non-nil error, the text
`the <txnInfo> txn: <txnHash> has failed with response code: <code>`, after
the single `WaitForTx` call; this error differs from every
`has been submitted, please check it later` error of the same transaction. -/
theorem waitTxnStatus_rejection_is_failedError (cli : Client)
    (txnHash txnInfo : GoString) (txnResponse : ResultTx)
    (hq : cli.WaitForTx 0 = .ok txnResponse)
    (hcode : txnResponse.TxResult.Code ≠ 0) :
    (waitTxnStatus cli txnHash txnInfo).1
        = some (failedError txnInfo txnHash txnResponse.TxResult.Code)
      ∧ (waitTxnStatus cli txnHash txnInfo).2.1 = [Event.WaitForTx txnHash]
      ∧ ∀ err, (waitTxnStatus cli txnHash txnInfo).1
          ≠ some (submittedError txnInfo txnHash err) := by
  have hr : (waitTxnStatus cli txnHash txnInfo).1
      = some (failedError txnInfo txnHash txnResponse.TxResult.Code) := by
    unfold waitTxnStatus
    simp [hq, hcode]
  refine ⟨hr, by rw [waitTxnStatus_snd], ?_⟩
  intro err he
  rw [hr] at he
  exact submittedError_ne_failedError txnInfo txnHash err _ (Option.some.inj he).symm

/-- Witness of the amended C4 at result code 5. -/
theorem waitTxnStatus_rejection_is_failedError_witness :
    rejectingClient.WaitForTx 0 = .ok ⟨⟨5⟩⟩
      ∧ (waitTxnStatus rejectingClient "0xAB".toList "DeleteObject".toList).1
        = some (failedError "DeleteObject".toList "0xAB".toList 5) :=
  ⟨rfl,
    (waitTxnStatus_rejection_is_failedError rejectingClient "0xAB".toList
      "DeleteObject".toList ⟨⟨5⟩⟩ rfl (by decide)).1⟩

/-- C5: `waitTxnStatus` returns nil if and only if `WaitForTx` returns without
error a response whose `TxResult.Code` is 0; for every other answer of
`WaitForTx` it returns a non-nil error. -/
theorem waitTxnStatus_nil_iff (cli : Client) (txnHash txnInfo : GoString) :
    ((waitTxnStatus cli txnHash txnInfo).1 = none
        ↔ ∃ txnResponse, cli.WaitForTx 0 = .ok txnResponse
            ∧ txnResponse.TxResult.Code = 0)
      ∧ ((∃ e, (waitTxnStatus cli txnHash txnInfo).1 = some e)
        ↔ ¬ ∃ txnResponse, cli.WaitForTx 0 = .ok txnResponse
            ∧ txnResponse.TxResult.Code = 0) := by
  unfold waitTxnStatus
  cases hq : cli.WaitForTx 0 with
  | error err => simp
  | ok resp =>
    by_cases hc : resp.TxResult.Code = 0
    · simp [hc]
    · simp [hc]

/-- C6: when the `WaitForTx` query fails with `err`, `waitTxnStatus` returns
the error `the <txnInfo> txn: <txnHash> ,has been submitted, please check it
later:<err>`, which is no `has failed with response code` error of that
transaction, whatever the code; and `waitTxnStatus` returns a
`has failed with response code` error only when `WaitForTx` succeeded with a
non-zero code. -/
theorem waitTxnStatus_failed_query_is_submittedError (cli : Client)
    (txnHash txnInfo : GoString) :
    (∀ err, cli.WaitForTx 0 = .error err →
        (waitTxnStatus cli txnHash txnInfo).1
            = some (submittedError txnInfo txnHash err)
          ∧ ∀ code, (waitTxnStatus cli txnHash txnInfo).1
              ≠ some (failedError txnInfo txnHash code))
      ∧ ∀ code, (waitTxnStatus cli txnHash txnInfo).1
            = some (failedError txnInfo txnHash code) →
          ∃ txnResponse, cli.WaitForTx 0 = .ok txnResponse
            ∧ txnResponse.TxResult.Code ≠ 0 := by
  constructor
  · intro err hq
    have hr : (waitTxnStatus cli txnHash txnInfo).1
        = some (submittedError txnInfo txnHash err) := by
      unfold waitTxnStatus
      simp [hq]
    refine ⟨hr, ?_⟩
    intro code he
    rw [hr] at he
    exact submittedError_ne_failedError txnInfo txnHash err code (Option.some.inj he)
  · intro code he
    cases hq : cli.WaitForTx 0 with
    | error err =>
      have hr : (waitTxnStatus cli txnHash txnInfo).1
          = some (submittedError txnInfo txnHash err) := by
        unfold waitTxnStatus
        simp [hq]
      rw [hr] at he
      exact absurd (Option.some.inj he)
        (submittedError_ne_failedError txnInfo txnHash err code)
    | ok resp =>
      refine ⟨resp, rfl, ?_⟩
      intro hc
      have hr : (waitTxnStatus cli txnHash txnInfo).1 = none := by
        unfold waitTxnStatus
        simp [hq, hc]
      rw [hr] at he
      exact Option.noConfusion he

/-! ## The URL parsers: C7 to C10 -/

/-- C7: for `s = "mechain://" ++ rest` with a `/` in `rest`, both
`ParseBucketAndObject` and `ParseBucketAndPrefix` succeed (no panic, nil
error) and return the part of `rest` before its first `/` as bucket and the
part after it as object or prefix: the two parts joined by `/` give `rest`
back, and the bucket holds no `/`. -/
theorem parse_prefixed_url_splits_at_first_slash (rest : GoString)
    (h : '/' ∈ rest) :
    ParseBucketAndObject (urlPrefix ++ rest)
        = some (beforeSlash rest, afterSlash rest, none)
      ∧ ParseBucketAndPrefix (urlPrefix ++ rest)
        = some (beforeSlash rest, afterSlash rest, none)
      ∧ beforeSlash rest ++ "/".toList ++ afterSlash rest = rest
      ∧ '/' ∉ beforeSlash rest := by
  have hs := stripUrlPrefix_append rest
  refine ⟨?_, ?_, ?_, slash_not_mem_beforeSlash rest⟩
  · rw [ParseBucketAndObject_of_strip _ _ hs, if_pos h]
  · rw [ParseBucketAndPrefix_of_strip _ _ hs, if_pos h]
  · rw [slash_toList, List.append_assoc]
    exact beforeSlash_append_afterSlash rest h

/-- Witness of C7 at `"mechain://bkt/dir/obj"`. -/
theorem parse_prefixed_url_splits_at_first_slash_witness :
    '/' ∈ "bkt/dir/obj".toList
      ∧ ParseBucketAndObject (urlPrefix ++ "bkt/dir/obj".toList)
        = some ("bkt".toList, "dir/obj".toList, none)
      ∧ ParseBucketAndPrefix (urlPrefix ++ "bkt/dir/obj".toList)
        = some ("bkt".toList, "dir/obj".toList, none) :=
  ⟨by decide,
    (parse_prefixed_url_splits_at_first_slash "bkt/dir/obj".toList (by decide)).1,
    (parse_prefixed_url_splits_at_first_slash "bkt/dir/obj".toList (by decide)).2.1⟩

/-- C8, as stated, fails: with `r = "mechain://b/o"` the doubly prefixed
string parses to bucket `"mechain:"` and object `"/b/o"`, while `r` itself
parses to bucket `"b"` and object `"o"`. -/
theorem strip_not_idempotent_on_prefixed_rest :
    ParseBucketAndObject (urlPrefix ++ "mechain://b/o".toList)
        = some ("mechain:".toList, "/b/o".toList, none)
      ∧ ParseBucketAndObject "mechain://b/o".toList
        = some ("b".toList, "o".toList, none)
      ∧ ParseBucketAndObject (urlPrefix ++ "mechain://b/o".toList)
        ≠ ParseBucketAndObject "mechain://b/o".toList := by
  decide

/-- C8, amended: for every `r` in which `"mechain://"` does not occur, the
prefixed string and `r` itself parse alike, in `ParseBucketAndObject`,
`ParseBucketAndPrefix` and `ParseBucket`. -/
theorem strip_prefix_same_result_when_rest_has_no_prefix (r : GoString)
    (h : ¬ urlPrefix <:+: r) :
    ParseBucketAndObject (urlPrefix ++ r) = ParseBucketAndObject r
      ∧ ParseBucketAndPrefix (urlPrefix ++ r) = ParseBucketAndPrefix r
      ∧ ParseBucket (urlPrefix ++ r) = ParseBucket r := by
  have h1 := stripUrlPrefix_append r
  have h2 := stripUrlPrefix_eq_self r h
  refine ⟨?_, ?_, ?_⟩
  · rw [ParseBucketAndObject_of_strip _ _ h1, ParseBucketAndObject_of_strip _ _ h2]
  · rw [ParseBucketAndPrefix_of_strip _ _ h1, ParseBucketAndPrefix_of_strip _ _ h2]
  · rw [ParseBucket_of_strip _ _ h1, ParseBucket_of_strip _ _ h2]

/-- Witness of the amended C8 at `r = "bkt/obj"`. -/
theorem strip_prefix_same_result_when_rest_has_no_prefix_witness :
    ¬ urlPrefix <:+: "bkt/obj".toList
      ∧ ParseBucketAndObject (urlPrefix ++ "bkt/obj".toList)
        = ParseBucketAndObject "bkt/obj".toList
      ∧ ParseBucketAndPrefix (urlPrefix ++ "bkt/obj".toList)
        = ParseBucketAndPrefix "bkt/obj".toList
      ∧ ParseBucket (urlPrefix ++ "bkt/obj".toList)
        = ParseBucket "bkt/obj".toList :=
  have hn : ¬ urlPrefix <:+: "bkt/obj".toList := fun hi =>
    absurd ((Contains_iff _ _).mpr hi) (by decide)
  ⟨hn, strip_prefix_same_result_when_rest_has_no_prefix "bkt/obj".toList hn⟩

/-- C9: let `r` be what is left of the input after scheme stripping (which
never panics).  When `r` has no `/`, `ParseBucketAndPrefix` returns `r` as
bucket, an empty prefix and a nil error, and `ParseBucketAndObject` returns
empty names and an error.  `ParseBucketAndObject` returns an error exactly
when `r` has no `/`, and `ParseBucketAndPrefix` always returns a nil error. -/
theorem parse_when_no_separator (s : GoString) :
    ∃ r, stripUrlPrefix s = some r
      ∧ ('/' ∉ r →
          ParseBucketAndPrefix s = some (r, [], none)
            ∧ ∃ e, ParseBucketAndObject s = some ([], [], some e))
      ∧ ((∃ b o e, ParseBucketAndObject s = some (b, o, some e)) ↔ '/' ∉ r)
      ∧ ∃ b p, ParseBucketAndPrefix s = some (b, p, none) := by
  obtain ⟨r, hs⟩ : ∃ r, stripUrlPrefix s = some r := ⟨_, stripUrlPrefix_total s⟩
  refine ⟨r, hs, ?_, ?_, ?_⟩
  · intro hm
    rw [ParseBucketAndPrefix_of_strip _ _ hs, ParseBucketAndObject_of_strip _ _ hs,
      if_neg hm, if_neg hm]
    exact ⟨rfl, _, rfl⟩
  · rw [ParseBucketAndObject_of_strip _ _ hs]
    constructor
    · rintro ⟨b, o, e, he⟩ hm
      rw [if_pos hm] at he
      simp at he
    · intro hm
      rw [if_neg hm]
      exact ⟨_, _, _, rfl⟩
  · rw [ParseBucketAndPrefix_of_strip _ _ hs]
    by_cases hm : '/' ∈ r
    · rw [if_pos hm]; exact ⟨_, _, rfl⟩
    · rw [if_neg hm]; exact ⟨_, _, rfl⟩

/-- C10, as stated, fails: `"mechain:///obj"` and `"/obj"` are parsed by both
functions into an empty bucket name and object `"obj"` with a nil error, and
`ParseBucketAndPrefix` accepts `"mechain://"` and `""` with an empty bucket. -/
theorem empty_bucket_is_accepted :
    ParseBucketAndObject "mechain:///obj".toList = some ([], "obj".toList, none)
      ∧ ParseBucketAndPrefix "mechain:///obj".toList
        = some ([], "obj".toList, none)
      ∧ ParseBucketAndObject "/obj".toList = some ([], "obj".toList, none)
      ∧ ParseBucketAndPrefix "/obj".toList = some ([], "obj".toList, none)
      ∧ ParseBucketAndPrefix "mechain://".toList = some ("".toList, "".toList, none)
      ∧ ParseBucketAndPrefix "".toList = some ("".toList, "".toList, none) :=
  ⟨by decide, by decide, by decide, by decide, by decide, by decide⟩

/-- C10, amended: when the bucket portion of the stripped input `r` is empty,
`ParseBucketAndPrefix` succeeds with an empty bucket name and a nil error;
`ParseBucketAndObject` does the same when `r` has a `/`, and returns its error
only when `r` has no `/`, in which case `r` is empty. -/
theorem empty_bucket_passes_through (s r : GoString)
    (hs : stripUrlPrefix s = some r) (he : beforeSlash r = []) :
    ParseBucketAndPrefix s = some ([], afterSlash r, none)
      ∧ ('/' ∈ r → ParseBucketAndObject s = some ([], afterSlash r, none))
      ∧ ('/' ∉ r → r = [] ∧ ∃ e, ParseBucketAndObject s = some ([], [], some e)) := by
  have hnil : '/' ∉ r → r = [] := by
    intro hm
    cases r with
    | nil => rfl
    | cons c t =>
      have hc : c ≠ '/' := fun hc => hm (by simp [hc])
      rw [beforeSlash_cons_ne c t hc] at he
      simp at he
  refine ⟨?_, ?_, ?_⟩
  · rw [ParseBucketAndPrefix_of_strip _ _ hs]
    by_cases hm : '/' ∈ r
    · rw [if_pos hm, he]
    · rw [if_neg hm, hnil hm]
      rfl
  · intro hm
    rw [ParseBucketAndObject_of_strip _ _ hs, if_pos hm, he]
  · intro hm
    refine ⟨hnil hm, ?_⟩
    rw [ParseBucketAndObject_of_strip _ _ hs, if_neg hm]
    exact ⟨_, rfl⟩

/-- Witness of the amended C10 at `"mechain:///obj"`. -/
theorem empty_bucket_passes_through_witness :
    stripUrlPrefix "mechain:///obj".toList = some "/obj".toList
      ∧ beforeSlash "/obj".toList = []
      ∧ ParseBucketAndPrefix "mechain:///obj".toList
        = some ([], afterSlash "/obj".toList, none) :=
  ⟨by decide, by decide,
    (empty_bucket_passes_through "mechain:///obj".toList "/obj".toList
      (by decide) (by decide)).1⟩

/-! ## Lemmas on the `ListObjects` calls of a run -/

theorem listCalls_append (a b : List Event) :
    listCalls (a ++ b) = listCalls a ++ listCalls b := by
  induction a with
  | nil => rfl
  | cons e t ih =>
    rw [List.cons_append]
    cases e
    all_goals simp only [listCalls, ih, List.cons_append]

theorem listCalls_length (t : List Event) :
    (listCalls t).length = listCallCount t := by
  induction t with
  | nil => rfl
  | cons e t ih =>
    cases e
    all_goals simp only [listCalls, listCallCount, List.length_cons, ih]

theorem listCalls_deleteObjects (bucketName privateKey : GoString) (cli : Client)
    (objects : List ObjectMeta) :
    listCalls (deleteObjects bucketName privateKey cli objects).1 = [] := by
  apply List.eq_nil_of_length_eq_zero
  rw [listCalls_length]
  exact (deleteObjects_facts bucketName privateKey cli objects).2.2.1

/-- The `ListObjects` calls of the loop started with `token`: call `0` carries
`token`, call `j + 1` the token returned with page `j`, which was truncated;
all calls carry the same bucket, prefix and `MaxKeys`. -/
theorem deleteObjectByPageLoop_listCalls (toCmdErr : GoError → GoError)
    (defaultMaxKey : Nat) (bucketName prefixName privateKey : GoString)
    (fuel : Nat) :
    ∀ (cli : Client) (token : GoString) (i : Nat),
      i < (listCalls (deleteObjectByPageLoop toCmdErr defaultMaxKey bucketName
            prefixName privateKey fuel cli token).2).length →
      ∃ tok,
        (listCalls (deleteObjectByPageLoop toCmdErr defaultMaxKey bucketName
            prefixName privateKey fuel cli token).2)[i]?
          = some (bucketName, ⟨false, defaultMaxKey, tok, prefixName⟩)
        ∧ (i = 0 → tok = token)
        ∧ ∀ j, i = j + 1 →
            ∃ page, cli.ListObjects j = .ok page ∧ page.IsTruncated = true
              ∧ tok = page.NextContinuationToken := by
  induction fuel with
  | zero =>
    intro cli token i hi
    simp [deleteObjectByPageLoop, listCalls] at hi
  | succ f ih =>
    intro cli token i hi
    cases hq : cli.ListObjects 0 with
    | error err =>
      rw [deleteObjectByPageLoop_error _ _ _ _ _ _ _ _ _ hq] at hi ⊢
      simp only [listCalls, List.length_singleton, Nat.lt_one_iff] at hi
      subst hi
      exact ⟨token, rfl, fun _ => rfl, fun j hj => absurd hj (Nat.succ_ne_zero j).symm⟩
    | ok page =>
      rw [deleteObjectByPageLoop_ok _ _ _ _ _ _ _ _ _ hq] at hi ⊢
      by_cases ht : page.IsTruncated = false
      · rw [if_pos ht] at hi ⊢
        simp only [listCalls, listCalls_deleteObjects, List.length_singleton,
          Nat.lt_one_iff] at hi
        subst hi
        refine ⟨token, ?_, fun _ => rfl,
          fun j hj => absurd hj (Nat.succ_ne_zero j).symm⟩
        simp only [listCalls, List.getElem?_cons_zero]
      · rw [if_neg ht] at hi ⊢
        have htt : page.IsTruncated = true := by
          cases hb : page.IsTruncated
          · exact absurd hb ht
          · rfl
        have hcalls : ∀ rest : List Event,
            listCalls ((Event.ListObjects bucketName
                ⟨false, defaultMaxKey, token, prefixName⟩
              :: (deleteObjects bucketName privateKey cli.afterListObjects
                    page.Objects).1) ++ rest)
            = (bucketName, ⟨false, defaultMaxKey, token, prefixName⟩)
              :: listCalls rest := by
          intro rest
          rw [List.cons_append, listCalls, listCalls_append,
            listCalls_deleteObjects, List.nil_append]
        dsimp only at hi ⊢
        rw [hcalls] at hi ⊢
        cases i with
        | zero =>
          exact ⟨token, List.getElem?_cons_zero, fun _ => rfl,
            fun j hj => absurd hj (Nat.succ_ne_zero j).symm⟩
        | succ m =>
          have hm : m < (listCalls (deleteObjectByPageLoop toCmdErr defaultMaxKey
              bucketName prefixName privateKey f
              (deleteObjects bucketName privateKey cli.afterListObjects
                page.Objects).2 page.NextContinuationToken).2).length := by
            simpa using hi
          obtain ⟨tok, h1, h2, h3⟩ := ih _ page.NextContinuationToken m hm
          refine ⟨tok, ?_, fun h0 => absurd h0 (Nat.succ_ne_zero m), ?_⟩
          · rw [List.getElem?_cons_succ]
            exact h1
          · intro j hj
            have hjm : j = m := by omega
            subst hjm
            cases j with
            | zero => exact ⟨page, hq, htt, h2 rfl⟩
            | succ j1 =>
              obtain ⟨pg, g1, g2, g3⟩ := h3 j1 rfl
              rw [ListObjects_after_page] at g1
              exact ⟨pg, g1, g2, g3⟩

/-! ## The continuation tokens of a run: C11 -/

/-- C11: in every run of `deleteObjectByPage`, however long it has run, the
first `ListObjects` call carries the empty continuation token, and call
`j + 1` carries the `NextContinuationToken` of page `j`, which was fetched
with success and had `IsTruncated = true`; every call carries the same bucket
and prefix, `MaxKeys = defaultMaxKey` and `ShowRemovedObject = false`. -/
theorem deleteObjectByPage_continuation_tokens (toCmdErr : GoError → GoError)
    (defaultMaxKey : Nat) (fuel : Nat) (cli : Client)
    (bucketName prefixName privateKey : GoString) (i : Nat)
    (hi : i < (listCalls (deleteObjectByPage toCmdErr defaultMaxKey fuel cli
      bucketName prefixName privateKey).2).length) :
    ∃ tok,
      (listCalls (deleteObjectByPage toCmdErr defaultMaxKey fuel cli bucketName
          prefixName privateKey).2)[i]?
        = some (bucketName, ⟨false, defaultMaxKey, tok, prefixName⟩)
      ∧ (i = 0 → tok = "".toList)
      ∧ ∀ j, i = j + 1 →
          ∃ page, cli.ListObjects j = .ok page ∧ page.IsTruncated = true
            ∧ tok = page.NextContinuationToken :=
  deleteObjectByPageLoop_listCalls toCmdErr defaultMaxKey bucketName prefixName
    privateKey fuel cli [] i hi

/-- Witness of C11: the second call of the `photos/` run carries the token
`t1` of the first page. -/
theorem deleteObjectByPage_continuation_tokens_witness :
    listCalls (deleteObjectByPage id 50 5 photosClient "bkt".toList
        "photos/".toList "key".toList).2
      = [("bkt".toList, ⟨false, 50, "".toList, "photos/".toList⟩),
         ("bkt".toList, ⟨false, 50, "t1".toList, "photos/".toList⟩)]
    ∧ ∃ tok,
      (listCalls (deleteObjectByPage id 50 5 photosClient "bkt".toList
          "photos/".toList "key".toList).2)[1]?
        = some ("bkt".toList, ⟨false, 50, tok, "photos/".toList⟩)
      ∧ (1 = 0 → tok = "".toList)
      ∧ ∀ j, 1 = j + 1 →
          ∃ page, photosClient.ListObjects j = .ok page
            ∧ page.IsTruncated = true ∧ tok = page.NextContinuationToken :=
  ⟨by decide,
    deleteObjectByPage_continuation_tokens id 50 5 photosClient "bkt".toList
      "photos/".toList "key".toList 1 (by decide)⟩

/-! ## `ParseBucket` and totality of the parsers: C15 and C18 -/

/-- C15, evaluated at `"mechain://b/o"`: `ParseBucket` returns `"b/o"`, the
whole stripped string, because `strings.SplitN(urlPath, "/", 1)` makes no cut,
while `ParseBucketAndPrefix` returns the bucket `"b"`. -/
theorem ParseBucket_returns_whole_path :
    ParseBucket "mechain://b/o".toList = some "b/o".toList
      ∧ ParseBucketAndPrefix "mechain://b/o".toList
        = some ("b".toList, "o".toList, none)
      ∧ SplitN "b/o".toList "/".toList 1 = ["b/o".toList] :=
  ⟨by decide, by decide, by decide⟩

/-- C18: for every input string the three parsers run without a panic.  The
slice `urlPath[len(urlPrefix):]` is in bounds whenever it is taken; with `r`
the stripped string, `r[:index]` and `r[index+1:]` are in bounds whenever
`index > -1`, and `splits[0]` exists. -/
theorem parsers_never_panic (s : GoString) :
    (∃ r, stripUrlPrefix s = some r
        ∧ (Contains s urlPrefix = true →
            sliceFrom s (urlPrefix.length : Int) = some r)
        ∧ (¬ Index r "/".toList ≤ -1 →
            (∃ b, sliceTo r (Index r "/".toList) = some b)
              ∧ ∃ o, sliceFrom r (Index r "/".toList + 1) = some o)
        ∧ ∃ b, (SplitN r "/".toList 1)[0]? = some b)
      ∧ (∃ res, ParseBucketAndObject s = some res)
      ∧ (∃ res, ParseBucketAndPrefix s = some res)
      ∧ ∃ b, ParseBucket s = some b := by
  obtain ⟨r, hs⟩ : ∃ r, stripUrlPrefix s = some r := ⟨_, stripUrlPrefix_total s⟩
  refine ⟨⟨r, hs, ?_, ?_, ?_⟩, ?_, ?_, ⟨r, ParseBucket_of_strip s r hs⟩⟩
  · intro hc
    simpa only [stripUrlPrefix, hc, if_true] using hs
  · intro hidx
    have hm : '/' ∈ r := by
      by_contra hm
      rw [Index_slash, if_neg hm] at hidx
      exact hidx (le_refl _)
    rw [Index_slash, if_pos hm]
    exact ⟨⟨_, sliceTo_beforeSlash r⟩, ⟨_, sliceFrom_beforeSlash r hm⟩⟩
  · exact ⟨r, by simp [SplitN, genSplitLoop]⟩
  · rw [ParseBucketAndObject_of_strip s r hs]
    by_cases hm : '/' ∈ r
    · rw [if_pos hm]; exact ⟨_, rfl⟩
    · rw [if_neg hm]; exact ⟨_, rfl⟩
  · rw [ParseBucketAndPrefix_of_strip s r hs]
    by_cases hm : '/' ∈ r
    · rw [if_pos hm]; exact ⟨_, rfl⟩
    · rw [if_neg hm]; exact ⟨_, rfl⟩

/-! ## Paged listings: C14 -/

theorem namesOfPages_pagedListing (cli : Client) (objects : List ObjectMeta)
    (P : Nat) (token : Nat → GoString)
    (hcli : cli.ListObjects = pagedListing objects P token) (k : Nat) :
    namesOfPages cli k
      = (objects.take (k * P)).map (fun o => o.ObjectInfo.ObjectName) := by
  induction k with
  | zero => simp [namesOfPages]
  | succ k ih =>
    have hp : pageNames cli k
        = ((objects.drop (k * P)).take P).map (fun o => o.ObjectInfo.ObjectName) := by
      simp only [pageNames, hcli, pagedListing]
    rw [namesOfPages, ih, hp, Nat.succ_mul, List.take_add, List.map_append]

/-- C14, as stated, fails for `N = 0`: on the empty listing, served in pages of
one, `deleteObjectByPage` makes one `ListObjects` call, while
`ceil(0 / 1) = 0`. -/
theorem deleteObjectByPage_empty_listing_one_call :
    (deleteObjectByPage id 50 1 emptyListingClient "bkt".toList "".toList
        "key".toList).1 = some none
      ∧ listCallCount (deleteObjectByPage id 50 1 emptyListingClient
          "bkt".toList "".toList "key".toList).2 = 1
      ∧ (0 + 1 - 1) / 1 = 0 :=
  ⟨by decide, by decide, by decide⟩

/-- C14, amended: against a service that holds `N` objects and serves them in
order in pages of `P ≥ 1` items, truncated exactly when objects remain,
`deleteObjectByPage` returns nil, passes exactly the `N` object names to
`DeleteObject` in server order, and makes `ceil(N / P)` `ListObjects` calls
when `N ≥ 1` and one call when `N = 0`. -/
theorem deleteObjectByPage_paged_listing (toCmdErr : GoError → GoError)
    (defaultMaxKey : Nat) (cli : Client)
    (bucketName prefixName privateKey : GoString) (objects : List ObjectMeta)
    (P : Nat) (token : Nat → GoString) (fuel : Nat) (hP : 1 ≤ P)
    (hcli : cli.ListObjects = pagedListing objects P token)
    (hfuel : objects.length < fuel) :
    (deleteObjectByPage toCmdErr defaultMaxKey fuel cli bucketName prefixName
        privateKey).1 = some none
      ∧ deletedNames (deleteObjectByPage toCmdErr defaultMaxKey fuel cli
          bucketName prefixName privateKey).2
        = objects.map (fun o => o.ObjectInfo.ObjectName)
      ∧ listCallCount (deleteObjectByPage toCmdErr defaultMaxKey fuel cli
          bucketName prefixName privateKey).2
        = if objects.length = 0 then 1 else (objects.length + P - 1) / P := by
  have hlt : objects.length - 1 < P * ((objects.length - 1) / P + 1) :=
    Nat.lt_mul_div_succ _ hP
  have hdiv : (objects.length - 1) / P * P ≤ objects.length - 1 :=
    Nat.div_mul_le_self _ _
  have hpages : ∀ j, j < (objects.length - 1) / P →
      ∃ page, cli.ListObjects j = .ok page ∧ page.IsTruncated = true := by
    intro j hj
    refine ⟨_, by rw [hcli]; rfl, ?_⟩
    have h1 : (j + 1) * P ≤ (objects.length - 1) / P * P :=
      Nat.mul_le_mul_right P hj
    have h2 : 1 * P ≤ (objects.length - 1) / P * P :=
      Nat.mul_le_mul_right P (by omega)
    have h3 : (j + 1) * P < objects.length := by omega
    simp only [decide_eq_true_eq]
    exact h3
  have hlast : ∃ page, cli.ListObjects ((objects.length - 1) / P) = .ok page
      ∧ page.IsTruncated = false := by
    refine ⟨_, by rw [hcli]; rfl, ?_⟩
    have h3 : ¬ ((objects.length - 1) / P + 1) * P < objects.length := by
      rw [Nat.mul_comm]
      omega
    simp only [decide_eq_false_iff_not]
    exact h3
  have hn : (objects.length - 1) / P < fuel :=
    lt_of_le_of_lt (Nat.div_le_self _ _) (by omega)
  obtain ⟨r1, r2, r3⟩ :=
    deleteObjectByPageLoop_complete toCmdErr defaultMaxKey bucketName prefixName
      privateKey _ cli [] fuel hpages hlast hn
  refine ⟨r1, ?_, ?_⟩
  · unfold deleteObjectByPage
    rw [r2, namesOfPages_pagedListing cli objects P token hcli,
      List.take_of_length_le]
    rw [Nat.mul_comm]
    omega
  · unfold deleteObjectByPage
    rw [r3]
    by_cases h0 : objects.length = 0
    · simp [h0]
    · rw [if_neg h0]
      have h4 : objects.length + P - 1 = objects.length - 1 + P := by omega
      rw [h4, Nat.add_div_right _ hP]

/-- Witness of the amended C14: three objects in pages of two take two
`ListObjects` calls. -/
theorem deleteObjectByPage_paged_listing_witness :
    photosPagedClient.ListObjects
        = pagedListing (photosPage0.Objects ++ photosPage1.Objects) 2
            (fun _ => "next".toList)
      ∧ listCallCount (deleteObjectByPage id 50 4 photosPagedClient
          "bkt".toList "photos/".toList "key".toList).2
        = (if (photosPage0.Objects ++ photosPage1.Objects).length = 0 then 1
          else ((photosPage0.Objects ++ photosPage1.Objects).length + 2 - 1) / 2)
      ∧ listCallCount (deleteObjectByPage id 50 4 photosPagedClient
          "bkt".toList "photos/".toList "key".toList).2 = 2 :=
  ⟨rfl,
    (deleteObjectByPage_paged_listing id 50 photosPagedClient "bkt".toList
      "photos/".toList "key".toList (photosPage0.Objects ++ photosPage1.Objects)
      2 (fun _ => "next".toList) 4 (by decide) rfl (by decide)).2.2,
    by decide⟩

/-! ## Lemmas on the outcome of each deletion -/

theorem printedLines_append (a b : List Event) :
    printedLines (a ++ b) = printedLines a ++ printedLines b := by
  induction a with
  | nil => rfl
  | cons e t ih =>
    rw [List.cons_append]
    cases e
    all_goals simp only [printedLines, ih, List.cons_append]

theorem deleteAndWaitCalls_append (a b : List Event) :
    deleteAndWaitCalls (a ++ b) = deleteAndWaitCalls a ++ deleteAndWaitCalls b := by
  induction a with
  | nil => rfl
  | cons e t ih =>
    rw [List.cons_append]
    cases e
    all_goals simp only [deleteAndWaitCalls, ih, List.cons_append]

theorem reportLines_append (cli : Client) (xs ys : List GoString) (i : Nat) :
    reportLines cli i (xs ++ ys)
      = reportLines cli i xs ++ reportLines cli (i + xs.length) ys := by
  induction xs generalizing i with
  | nil => simp [reportLines]
  | cons x rest ih =>
    rw [List.cons_append, reportLines, reportLines, ih, List.length_cons,
      List.cons_append]
    have h : i + 1 + rest.length = i + (rest.length + 1) := by omega
    rw [h]

theorem itemCalls_append (cli : Client) (bucketName privateKey : GoString)
    (xs ys : List GoString) (i : Nat) :
    itemCalls cli bucketName privateKey i (xs ++ ys)
      = itemCalls cli bucketName privateKey i xs
        ++ itemCalls cli bucketName privateKey (i + xs.length) ys := by
  induction xs generalizing i with
  | nil => simp [itemCalls]
  | cons x rest ih =>
    rw [List.cons_append, itemCalls, itemCalls, ih, List.length_cons,
      List.append_assoc]
    have h : i + 1 + rest.length = i + (rest.length + 1) := by omega
    rw [h]

/-- One call of `deleteObjectAndWaitTxn`, read with the outcome that the
current script gives to its next deletion. -/
theorem deleteObjectAndWaitTxn_eq (cur : Client)
    (bucketName objectName privateKey : GoString) :
    printedLines (deleteObjectAndWaitTxn cur bucketName objectName privateKey).1
        = [(itemOutcome cur 0).line objectName]
      ∧ deleteAndWaitCalls
          (deleteObjectAndWaitTxn cur bucketName objectName privateKey).1
        = Event.DeleteObject bucketName objectName privateKey
          :: (match cur.DeleteObject 0 with
              | .ok txnHash => [Event.WaitForTx txnHash]
              | .error _ => [])
      ∧ (deleteObjectAndWaitTxn cur bucketName objectName privateKey).2
        = (match cur.DeleteObject 0 with
            | .ok _ => cur.afterDeleteObject.afterWaitForTx
            | .error _ => cur.afterDeleteObject) := by
  unfold deleteObjectAndWaitTxn itemOutcome
  cases hd : cur.DeleteObject 0 with
  | error err =>
    simp [printedLines, deleteAndWaitCalls, ItemOutcome.line]
  | ok txnHash =>
    have hw0 : cur.afterDeleteObject.WaitForTx 0 = cur.WaitForTx 0 := rfl
    unfold waitTxnStatus
    rw [hw0]
    simp only [broadcastCount]
    cases hw : cur.WaitForTx 0 with
    | error err =>
      simp [printedLines, deleteAndWaitCalls, ItemOutcome.line]
    | ok resp =>
      by_cases hc : resp.TxResult.Code = 0
      · simp [hc, printedLines, deleteAndWaitCalls, ItemOutcome.line]
      · simp [hc, printedLines, deleteAndWaitCalls, ItemOutcome.line]

theorem ScriptAt_refl (cli : Client) : ScriptAt cli cli 0 :=
  ⟨fun _ => rfl, fun _ => rfl⟩

theorem ScriptAt_afterListObjects (cli cur : Client) (i : Nat)
    (h : ScriptAt cli cur i) : ScriptAt cli cur.afterListObjects i :=
  ⟨fun k => h.1 k, fun k => h.2 k⟩

theorem itemOutcome_of_ScriptAt (cli cur : Client) (i : Nat)
    (h : ScriptAt cli cur i) : itemOutcome cur 0 = itemOutcome cli i := by
  have hd : cur.DeleteObject 0 = cli.DeleteObject i := by
    rw [h.1 0, Nat.zero_add]
  have hw : cur.WaitForTx 0 = cli.WaitForTx (broadcastCount cli i) := by
    rw [h.2 0, Nat.zero_add]
  simp only [itemOutcome, broadcastCount, hd, hw]

/-- One call of `deleteObjectAndWaitTxn` at deletion `i` of the script `cli`. -/
theorem deleteObjectAndWaitTxn_at (cli cur : Client) (i : Nat)
    (bucketName objectName privateKey : GoString) (h : ScriptAt cli cur i) :
    printedLines (deleteObjectAndWaitTxn cur bucketName objectName privateKey).1
        = reportLines cli i [objectName]
      ∧ deleteAndWaitCalls
          (deleteObjectAndWaitTxn cur bucketName objectName privateKey).1
        = itemCalls cli bucketName privateKey i [objectName]
      ∧ ScriptAt cli
          (deleteObjectAndWaitTxn cur bucketName objectName privateKey).2
          (i + 1) := by
  obtain ⟨e1, e2, e3⟩ :=
    deleteObjectAndWaitTxn_eq cur bucketName objectName privateKey
  have hd : cur.DeleteObject 0 = cli.DeleteObject i := by
    rw [h.1 0, Nat.zero_add]
  refine ⟨?_, ?_, ?_⟩
  · rw [e1, itemOutcome_of_ScriptAt cli cur i h]
    rfl
  · rw [e2, hd]
    simp only [itemCalls, List.append_nil]
  · rw [e3, hd]
    cases hq : cli.DeleteObject i with
    | error err =>
      refine ⟨fun k => ?_, fun k => ?_⟩
      · show cur.DeleteObject (k + 1) = _
        rw [h.1 (k + 1)]
        congr 1
        omega
      · show cur.WaitForTx k = _
        rw [h.2 k]
        simp only [broadcastCount, hq, Nat.add_zero]
    | ok txnHash =>
      refine ⟨fun k => ?_, fun k => ?_⟩
      · show cur.DeleteObject (k + 1) = _
        rw [h.1 (k + 1)]
        congr 1
        omega
      · show cur.WaitForTx (k + 1) = _
        rw [h.2 (k + 1)]
        simp only [broadcastCount, hq]
        congr 1
        omega

/-- The loop over the objects of one page, started at deletion `i` of the
script `cli`. -/
theorem deleteObjects_at (cli : Client) (bucketName privateKey : GoString)
    (objects : List ObjectMeta) :
    ∀ (cur : Client) (i : Nat), ScriptAt cli cur i →
      printedLines (deleteObjects bucketName privateKey cur objects).1
          = reportLines cli i (objects.map (fun o => o.ObjectInfo.ObjectName))
        ∧ deleteAndWaitCalls (deleteObjects bucketName privateKey cur objects).1
          = itemCalls cli bucketName privateKey i
              (objects.map (fun o => o.ObjectInfo.ObjectName))
        ∧ ScriptAt cli (deleteObjects bucketName privateKey cur objects).2
            (i + objects.length) := by
  induction objects with
  | nil =>
    intro cur i h
    exact ⟨rfl, rfl, h⟩
  | cons o rest ih =>
    intro cur i h
    obtain ⟨a1, a2, a3⟩ := deleteObjectAndWaitTxn_at cli cur i bucketName
      o.ObjectInfo.ObjectName privateKey h
    obtain ⟨b1, b2, b3⟩ := ih _ (i + 1) a3
    have hlen : i + 1 + rest.length = i + (rest.length + 1) := by omega
    refine ⟨?_, ?_, ?_⟩
    · simp only [deleteObjects, printedLines_append, a1, b1, List.map_cons]
      rfl
    · simp only [deleteObjects, deleteAndWaitCalls_append, a2, b2, List.map_cons]
      simp only [itemCalls, List.append_nil]
    · simp only [deleteObjects, List.length_cons]
      rw [← hlen]
      exact b3

theorem printedLines_cons_ListObjects (b : GoString) (o : ListObjectsOptions)
    (t : List Event) :
    printedLines (Event.ListObjects b o :: t) = printedLines t := rfl

theorem deleteAndWaitCalls_cons_ListObjects (b : GoString)
    (o : ListObjectsOptions) (t : List Event) :
    deleteAndWaitCalls (Event.ListObjects b o :: t) = deleteAndWaitCalls t := rfl

theorem pageNames_length_of_ok (cli : Client) (k : Nat) (page : ListObjectsResult)
    (h : cli.ListObjects k = .ok page) :
    (pageNames cli k).length = page.Objects.length := by
  rw [pageNames_of_ok cli k page h, List.length_map]

/-- The printed lines and the deletion calls of a run that starts at deletion
`i` of the script `cli` and processes a listing to its end. -/
theorem deleteObjectByPageLoop_report (toCmdErr : GoError → GoError)
    (defaultMaxKey : Nat) (bucketName prefixName privateKey : GoString)
    (cli : Client) (n : Nat) :
    ∀ (cur : Client) (token : GoString) (fuel i : Nat),
      ScriptAt cli cur i →
      (∀ j, j < n → ∃ page, cur.ListObjects j = .ok page ∧ page.IsTruncated = true) →
      (∃ page, cur.ListObjects n = .ok page ∧ page.IsTruncated = false) →
      n < fuel →
      printedLines (deleteObjectByPageLoop toCmdErr defaultMaxKey bucketName
          prefixName privateKey fuel cur token).2
          = reportLines cli i (namesOfPages cur (n + 1))
        ∧ deleteAndWaitCalls (deleteObjectByPageLoop toCmdErr defaultMaxKey
            bucketName prefixName privateKey fuel cur token).2
          = itemCalls cli bucketName privateKey i (namesOfPages cur (n + 1)) := by
  induction n with
  | zero =>
    intro cur token fuel i hat _ hlast hfuel
    obtain ⟨page, hp, ht⟩ := hlast
    obtain ⟨f, rfl⟩ : ∃ f, fuel = f + 1 := ⟨fuel - 1, by omega⟩
    rw [deleteObjectByPageLoop_ok _ _ _ _ _ _ _ _ _ hp, if_pos ht]
    obtain ⟨d1, d2, _⟩ := deleteObjects_at cli bucketName privateKey page.Objects
      cur.afterListObjects i (ScriptAt_afterListObjects cli cur i hat)
    have hnames : namesOfPages cur (0 + 1)
        = page.Objects.map (fun o => o.ObjectInfo.ObjectName) := by
      simp only [namesOfPages, List.nil_append, pageNames_of_ok cur 0 page hp]
    dsimp only
    rw [printedLines_cons_ListObjects, deleteAndWaitCalls_cons_ListObjects, d1, d2,
      hnames]
    exact ⟨rfl, rfl⟩
  | succ n ih =>
    intro cur token fuel i hat hpages hlast hfuel
    obtain ⟨page, hp, ht⟩ := hpages 0 (Nat.succ_pos n)
    obtain ⟨f, rfl⟩ : ∃ f, fuel = f + 1 := ⟨fuel - 1, by omega⟩
    have hnt : ¬ page.IsTruncated = false := by simp [ht]
    rw [deleteObjectByPageLoop_ok _ _ _ _ _ _ _ _ _ hp, if_neg hnt]
    have hshift := ListObjects_after_page bucketName privateKey cur page.Objects
    obtain ⟨d1, d2, d3⟩ := deleteObjects_at cli bucketName privateKey page.Objects
      cur.afterListObjects i (ScriptAt_afterListObjects cli cur i hat)
    have hpages1 : ∀ j, j < n →
        ∃ pg, (deleteObjects bucketName privateKey cur.afterListObjects
          page.Objects).2.ListObjects j = .ok pg ∧ pg.IsTruncated = true := by
      intro j hj
      rw [hshift j]
      exact hpages (j + 1) (by omega)
    have hlast1 : ∃ pg, (deleteObjects bucketName privateKey cur.afterListObjects
        page.Objects).2.ListObjects n = .ok pg ∧ pg.IsTruncated = false := by
      rw [hshift n]
      exact hlast
    obtain ⟨i1, i2⟩ := ih _ page.NextContinuationToken f (i + page.Objects.length)
      d3 hpages1 hlast1 (by omega)
    have hnames := namesOfPages_shift cur _ hshift (n + 1)
    have hlen := pageNames_length_of_ok cur 0 page hp
    have hpn := pageNames_of_ok cur 0 page hp
    dsimp only
    rw [List.cons_append, printedLines_cons_ListObjects,
      deleteAndWaitCalls_cons_ListObjects, printedLines_append,
      deleteAndWaitCalls_append, d1, d2, i1, i2, hnames, reportLines_append,
      itemCalls_append, hlen, hpn]
    exact ⟨rfl, rfl⟩

theorem isDeleteLine_line (objectName : GoString) (o : ItemOutcome) :
    isDeleteLine (o.line objectName) = decide (o = ItemOutcome.deleted) := by
  cases o with
  | deleted =>
    have h : "delete: ".toList <+: "delete: ".toList ++ objectName ++ "\n".toList := by
      rw [List.append_assoc]
      exact List.prefix_append _ _
    have h2 := List.isPrefixOf_iff_prefix.mpr h
    simp [isDeleteLine, ItemOutcome.line, h2]
  | notBroadcast cause => simp [isDeleteLine, ItemOutcome.line, String.toList, List.isPrefixOf]
  | notConfirmed cause => simp [isDeleteLine, ItemOutcome.line, String.toList, List.isPrefixOf]

/-- The report lines split into the success lines of the objects deleted and
the failure lines of the objects not deleted. -/
theorem reportLines_split (cli : Client) (names : List GoString) :
    ∀ i : Nat,
      (reportLines cli i names).filter isDeleteLine
          = (succeededNames cli i names).map (fun nm => ItemOutcome.deleted.line nm)
        ∧ (reportLines cli i names).filter (fun l => !isDeleteLine l)
          = (failedItems cli i names).map (fun x => x.2.line x.1)
        ∧ (succeededNames cli i names).length + (failedItems cli i names).length
          = names.length := by
  induction names with
  | nil =>
    intro i
    exact ⟨rfl, rfl, rfl⟩
  | cons nm rest ih =>
    intro i
    obtain ⟨h1, h2, h3⟩ := ih (i + 1)
    cases ho : itemOutcome cli i with
    | deleted =>
      have hf : isDeleteLine (ItemOutcome.line nm ItemOutcome.deleted) = true := by
        rw [isDeleteLine_line]
        simp
      simp only [reportLines, succeededNames, failedItems, ho, List.filter_cons,
        hf, if_true, Bool.not_true, Bool.false_eq_true, if_false,
        List.map_cons, h1, h2, List.length_cons]
      refine ⟨trivial, trivial, ?_⟩
      omega
    | notBroadcast cause =>
      have hf : isDeleteLine (ItemOutcome.line nm (ItemOutcome.notBroadcast cause))
          = false := by
        rw [isDeleteLine_line]
        simp
      simp only [reportLines, succeededNames, failedItems, ho, List.filter_cons,
        hf, if_true, Bool.not_false, Bool.false_eq_true, if_false,
        List.map_cons, h1, h2, List.length_cons]
      refine ⟨trivial, trivial, ?_⟩
      omega
    | notConfirmed cause =>
      have hf : isDeleteLine (ItemOutcome.line nm (ItemOutcome.notConfirmed cause))
          = false := by
        rw [isDeleteLine_line]
        simp
      simp only [reportLines, succeededNames, failedItems, ho, List.filter_cons,
        hf, if_true, Bool.not_false, Bool.false_eq_true, if_false,
        List.map_cons, h1, h2, List.length_cons]
      refine ⟨trivial, trivial, ?_⟩
      omega

theorem deleteObjectAndWaitTxn_remoteCalls (cur : Client)
    (bucketName objectName privateKey : GoString) :
    remoteCalls (deleteObjectAndWaitTxn cur bucketName objectName privateKey).1
      = Event.DeleteObject bucketName objectName privateKey
        :: (match cur.DeleteObject 0 with
            | .ok txnHash => [Event.WaitForTx txnHash]
            | .error _ => []) := by
  unfold deleteObjectAndWaitTxn
  cases hd : cur.DeleteObject 0 with
  | error err => simp [remoteCalls]
  | ok txnHash =>
    have hw := waitTxnStatus_snd cur.afterDeleteObject txnHash "DeleteObject".toList
    rcases hr : waitTxnStatus cur.afterDeleteObject txnHash "DeleteObject".toList
      with ⟨err, evs, cli1⟩
    rw [hr] at hw
    simp only [Prod.mk.injEq] at hw
    obtain ⟨rfl, rfl⟩ := hw
    dsimp only
    rw [hr]
    cases err <;> simp [remoteCalls]

/-! ## The report of a bulk deletion and the order of its calls: C12 and C17 -/

/-- C12: when the listing is fetched with success up to its first page that
is not truncated and holds `M` object names in all, `deleteObjectByPage`
passes exactly these `M` names to `DeleteObject`, and prints for each of them,
in order, the line of its outcome: the success lines are exactly the lines
`delete: <name>` of the objects whose deletion succeeded, the other lines are
exactly the failure lines of the `K` objects whose deletion failed, each with
the object's name and the cause, and the two numbers add up to `M`. -/
theorem deleteObjectByPage_report (toCmdErr : GoError → GoError)
    (defaultMaxKey : Nat) (cli : Client)
    (bucketName prefixName privateKey : GoString) (n fuel : Nat)
    (hpages : ∀ j, j < n →
      ∃ page, cli.ListObjects j = .ok page ∧ page.IsTruncated = true)
    (hlast : ∃ page, cli.ListObjects n = .ok page ∧ page.IsTruncated = false)
    (hfuel : n < fuel) :
    deletedNames (deleteObjectByPage toCmdErr defaultMaxKey fuel cli bucketName
        prefixName privateKey).2 = namesOfPages cli (n + 1)
      ∧ printedLines (deleteObjectByPage toCmdErr defaultMaxKey fuel cli
          bucketName prefixName privateKey).2
        = reportLines cli 0 (namesOfPages cli (n + 1))
      ∧ (printedLines (deleteObjectByPage toCmdErr defaultMaxKey fuel cli
          bucketName prefixName privateKey).2).filter isDeleteLine
        = (succeededNames cli 0 (namesOfPages cli (n + 1))).map
            (fun nm => "delete: ".toList ++ nm ++ "\n".toList)
      ∧ (printedLines (deleteObjectByPage toCmdErr defaultMaxKey fuel cli
          bucketName prefixName privateKey).2).filter (fun l => !isDeleteLine l)
        = (failedItems cli 0 (namesOfPages cli (n + 1))).map
            (fun x => x.2.line x.1)
      ∧ (succeededNames cli 0 (namesOfPages cli (n + 1))).length
          + (failedItems cli 0 (namesOfPages cli (n + 1))).length
        = (namesOfPages cli (n + 1)).length := by
  have hnames := (deleteObjectByPageLoop_complete toCmdErr defaultMaxKey bucketName
    prefixName privateKey n cli [] fuel hpages hlast hfuel).2.1
  have hlines := (deleteObjectByPageLoop_report toCmdErr defaultMaxKey bucketName
    prefixName privateKey cli n cli [] fuel 0 (ScriptAt_refl cli) hpages hlast
    hfuel).1
  obtain ⟨s1, s2, s3⟩ := reportLines_split cli (namesOfPages cli (n + 1)) 0
  unfold deleteObjectByPage
  rw [hlines]
  exact ⟨hnames, rfl, s1, s2, s3⟩

/-- Witness of C12: prefix `photos/`, pages of two and one objects, the
confirmation of the second deletion times out: three deletions attempted, two
success lines, and `photos/b.png` as the one failure, with its cause. -/
theorem deleteObjectByPage_report_witness :
    deletedNames (deleteObjectByPage id 50 2 photosClientTimeout "bkt".toList
        "photos/".toList "key".toList).2
      = namesOfPages photosClientTimeout 2
    ∧ namesOfPages photosClientTimeout 2
      = ["photos/a.png".toList, "photos/b.png".toList, "photos/c.png".toList]
    ∧ printedLines (deleteObjectByPage id 50 2 photosClientTimeout "bkt".toList
        "photos/".toList "key".toList).2
      = ["delete: photos/a.png\n".toList,
         ("failed to query the txn of deleting object photos/b.png, err:"
           ++ "the DeleteObject txn: 0xAB ,has been submitted, please check it "
           ++ "later:context deadline exceeded\n").toList,
         "delete: photos/c.png\n".toList]
    ∧ succeededNames photosClientTimeout 0 (namesOfPages photosClientTimeout 2)
      = ["photos/a.png".toList, "photos/c.png".toList]
    ∧ failedItems photosClientTimeout 0 (namesOfPages photosClientTimeout 2)
      = [("photos/b.png".toList,
          ItemOutcome.notConfirmed (submittedError "DeleteObject".toList
            "0xAB".toList "context deadline exceeded".toList))] :=
  ⟨(deleteObjectByPage_report id 50 photosClientTimeout "bkt".toList
      "photos/".toList "key".toList 1 2
      (fun j hj => match j, hj with
        | 0, _ => ⟨photosPage0, rfl, rfl⟩)
      ⟨photosPage1, rfl, rfl⟩ (by decide)).1,
    by decide, by decide, by decide, by decide⟩

/-- C17: the remote calls of one `deleteObjectAndWaitTxn` are one
`DeleteObject` call, followed by one `WaitForTx` call on the returned hash when
the broadcast succeeded and by nothing when it failed; and in a run that
processes a listing to its end, the `DeleteObject` and `WaitForTx` calls are
these blocks, one per object in listing order, each complete before the next
begins. -/
theorem deletion_calls_are_sequential (toCmdErr : GoError → GoError)
    (defaultMaxKey : Nat) (cli : Client)
    (bucketName prefixName privateKey : GoString) (n fuel : Nat)
    (hpages : ∀ j, j < n →
      ∃ page, cli.ListObjects j = .ok page ∧ page.IsTruncated = true)
    (hlast : ∃ page, cli.ListObjects n = .ok page ∧ page.IsTruncated = false)
    (hfuel : n < fuel) :
    (∀ (cur : Client) (objectName : GoString),
        remoteCalls (deleteObjectAndWaitTxn cur bucketName objectName privateKey).1
          = Event.DeleteObject bucketName objectName privateKey
            :: (match cur.DeleteObject 0 with
                | .ok txnHash => [Event.WaitForTx txnHash]
                | .error _ => []))
      ∧ deleteAndWaitCalls (deleteObjectByPage toCmdErr defaultMaxKey fuel cli
          bucketName prefixName privateKey).2
        = itemCalls cli bucketName privateKey 0 (namesOfPages cli (n + 1)) :=
  ⟨fun cur objectName =>
      deleteObjectAndWaitTxn_remoteCalls cur bucketName objectName privateKey,
    (deleteObjectByPageLoop_report toCmdErr defaultMaxKey bucketName prefixName
      privateKey cli n cli [] fuel 0 (ScriptAt_refl cli) hpages hlast hfuel).2⟩

/-- Witness of C17: the `photos/` listing on a service that refuses the
broadcast of every deletion makes three `DeleteObject` calls and no
`WaitForTx` call. -/
theorem deletion_calls_are_sequential_witness :
    deleteAndWaitCalls (deleteObjectByPage id 50 2 photosClientAllFail
        "bkt".toList "photos/".toList "key".toList).2
      = itemCalls photosClientAllFail "bkt".toList "key".toList 0
          (namesOfPages photosClientAllFail 2)
    ∧ itemCalls photosClientAllFail "bkt".toList "key".toList 0
        (namesOfPages photosClientAllFail 2)
      = [Event.DeleteObject "bkt".toList "photos/a.png".toList "key".toList,
         Event.DeleteObject "bkt".toList "photos/b.png".toList "key".toList,
         Event.DeleteObject "bkt".toList "photos/c.png".toList "key".toList]
    ∧ itemCalls photosClientTimeout "bkt".toList "key".toList 0
        (namesOfPages photosClientTimeout 2)
      = [Event.DeleteObject "bkt".toList "photos/a.png".toList "key".toList,
         Event.WaitForTx "0xAB".toList,
         Event.DeleteObject "bkt".toList "photos/b.png".toList "key".toList,
         Event.WaitForTx "0xAB".toList,
         Event.DeleteObject "bkt".toList "photos/c.png".toList "key".toList,
         Event.WaitForTx "0xAB".toList] :=
  ⟨(deletion_calls_are_sequential id 50 photosClientAllFail "bkt".toList
      "photos/".toList "key".toList 1 2
      (fun j hj => match j, hj with
        | 0, _ => ⟨photosPage0, rfl, rfl⟩)
      ⟨photosPage1, rfl, rfl⟩ (by decide)).2,
    by decide, by decide⟩

/-! ## Lemmas on the single-operation commands -/

theorem remoteCalls_append (a b : List Event) :
    remoteCalls (a ++ b) = remoteCalls a ++ remoteCalls b := by
  induction a with
  | nil => rfl
  | cons e t ih =>
    rw [List.cons_append]
    cases e
    all_goals simp only [remoteCalls, ih, List.cons_append]

theorem remoteCalls_headBucketEvents (client : AdminClient) (bucketName : GoString) :
    remoteCalls (headBucketEvents client bucketName)
      = [Event.HeadBucket bucketName] := by
  unfold headBucketEvents
  cases client.HeadBucket 0 <;> rfl

theorem waitTxnStatus_eq_of_fst (cli : Client) (txnHash txnInfo : GoString)
    (r : GoError) (h : (waitTxnStatus cli txnHash txnInfo).1 = r) :
    waitTxnStatus cli txnHash txnInfo
      = (r, [Event.WaitForTx txnHash], cli.afterWaitForTx) := by
  have h2 := waitTxnStatus_snd cli txnHash txnInfo
  rcases hw : waitTxnStatus cli txnHash txnInfo with ⟨a, b⟩
  rw [hw] at h h2
  simp only at h h2
  rw [h, h2]

/-! ## The single-operation delete commands: C13 -/

/-- C13, as stated, fails: with helpers that hand every error on unchanged,
on a service that refuses every call, the non-recursive `deleteObject` makes
its `DeleteObject` call, prints the failure and returns nil; and `deleteBucket`
goes on to its `DeleteBucket` call after the failed existence check, prints the
failure of the broadcast and returns nil. -/
theorem single_delete_returns_nil_after_failed_step :
    deleteObject (exampleUtils refusingAdminClient) 1
        ⟨["mechain://bkt/obj".toList], false⟩
      = (some none,
          [Event.DeleteObject "bkt".toList "obj".toList "key".toList,
           Event.Printf "failed to delete object obj err:denied\n".toList])
    ∧ deleteBucket (exampleUtils refusingAdminClient)
        ⟨["mechain://bkt".toList], false⟩
      = (none,
          [Event.HeadBucket "bkt".toList,
           Event.Printf "bucket bkt not exist or already deleted\n".toList,
           Event.DeleteBucket "bkt".toList "key".toList,
           Event.Printf "delete bucket error: denied\n".toList]) :=
  ⟨by decide, by decide⟩

/-- C13, amended: a single-operation delete command that has one argument and
a client stops at the first failed broadcast or confirmation of its one
transaction, with no remote call after it.  `deleteGroup` then returns
`toCmdErr(err)`, and so does `deleteBucket` when the confirmation fails; the
non-recursive `deleteObject` prints the failure and returns nil. -/
theorem single_delete_stops_at_failed_step (u : Utils) (ctx : CliContext)
    (client : AdminClient) (privateKey : GoString) (fuel : Nat)
    (hargs : ctx.Args.length = 1)
    (hcli : u.NewClient ctx = .ok (client, privateKey)) :
    (∀ groupName, u.getGroupNameByUrl ctx = (groupName, none) →
        (∀ err, client.DeleteGroup 0 = .error err →
          deleteGroup u ctx
            = (u.toCmdErr (some err), [Event.DeleteGroup groupName privateKey]))
        ∧ ∀ txnHash err, client.DeleteGroup 0 = .ok txnHash →
            (waitTxnStatus client.toClient txnHash "DeleteGroup".toList).1
              = some err →
            deleteGroup u ctx
              = (u.toCmdErr (some err),
                  [Event.DeleteGroup groupName privateKey,
                   Event.WaitForTx txnHash]))
      ∧ (∀ bucketName, u.getBucketNameByUrl ctx = (bucketName, none) →
        (∀ err, client.DeleteBucket 0 = .error err →
          remoteCalls (deleteBucket u ctx).2
            = [Event.HeadBucket bucketName,
               Event.DeleteBucket bucketName privateKey])
        ∧ ∀ txnHash err, client.DeleteBucket 0 = .ok txnHash →
            (waitTxnStatus client.toClient txnHash "DeleteBucket".toList).1
              = some err →
            (deleteBucket u ctx).1 = u.toCmdErr (some err)
              ∧ remoteCalls (deleteBucket u ctx).2
                = [Event.HeadBucket bucketName,
                   Event.DeleteBucket bucketName privateKey,
                   Event.WaitForTx txnHash])
      ∧ (∀ bucketName objectName, ctx.recursive = false →
        u.getObjAndBucketNames (ctx.Args.getD 0 [])
          = (bucketName, objectName, none) →
        (∀ err, client.DeleteObject 0 = .error err →
          deleteObject u fuel ctx
            = (some none,
                [Event.DeleteObject bucketName objectName privateKey,
                 Event.Printf ("failed to delete object ".toList ++ objectName
                   ++ " err:".toList ++ err ++ "\n".toList)]))
        ∧ ∀ txnHash err, client.DeleteObject 0 = .ok txnHash →
            (waitTxnStatus client.toClient.afterDeleteObject txnHash
              "DeleteObject".toList).1 = some err →
            deleteObject u fuel ctx
              = (some none,
                  [Event.DeleteObject bucketName objectName privateKey,
                   Event.WaitForTx txnHash,
                   Event.Printf
                     ("failed to query the txn of deleting object ".toList
                       ++ objectName ++ ", err:".toList ++ err
                       ++ "\n".toList)])) := by
  have hne : ¬ ctx.Args.length ≠ 1 := fun h => h hargs
  refine ⟨?_, ?_, ?_⟩
  · intro groupName hg
    refine ⟨?_, ?_⟩
    · intro err hd
      simp only [deleteGroup, hne, if_false, hg, hcli, hd]
    · intro txnHash err hd hw
      have hw2 := waitTxnStatus_eq_of_fst _ _ _ _ hw
      simp only [deleteGroup, hne, if_false, hg, hcli, hd, hw2]
  · intro bucketName hb
    refine ⟨?_, ?_⟩
    · intro err hd
      simp only [deleteBucket, hne, if_false, hb, hcli, hd, remoteCalls_append,
        remoteCalls_headBucketEvents, remoteCalls, List.singleton_append]
    · intro txnHash err hd hw
      have hw2 := waitTxnStatus_eq_of_fst _ _ _ _ hw
      simp only [deleteBucket, hne, if_false, hb, hcli, hd, hw2,
        remoteCalls_append, remoteCalls_headBucketEvents, remoteCalls,
        List.singleton_append, and_self]
  · intro bucketName objectName hrec ho
    refine ⟨?_, ?_⟩
    · intro err hd
      simp only [deleteObject, hne, if_false, ho, deleteObjectNames, hcli, hrec,
        Bool.false_eq_true, deleteObjectAndWaitTxn, hd]
    · intro txnHash err hd hw
      have hw2 := waitTxnStatus_eq_of_fst _ _ _ _ hw
      simp only [deleteObject, hne, if_false, ho, deleteObjectNames, hcli, hrec,
        Bool.false_eq_true, deleteObjectAndWaitTxn, hd, hw2, List.cons_append,
        List.nil_append]

/-- Witness of the amended C13: `deleteGroup` on a service that refuses the
broadcast returns the error and makes no further call. -/
theorem single_delete_stops_at_failed_step_witness :
    (exampleUtils refusingAdminClient).NewClient ⟨["grp".toList], false⟩
        = .ok (refusingAdminClient, "key".toList)
      ∧ deleteGroup (exampleUtils refusingAdminClient) ⟨["grp".toList], false⟩
        = (some "denied".toList, [Event.DeleteGroup "grp".toList "key".toList]) :=
  ⟨rfl,
    ((single_delete_stops_at_failed_step (exampleUtils refusingAdminClient)
      ⟨["grp".toList], false⟩ refusingAdminClient "key".toList 1 rfl rfl).1
        "grp".toList rfl).1 "denied".toList rfl⟩

/-! ## The default storage provider: C19 -/

/-- C19, evaluated at the failing input, a successful
`ListStorageProviders` answer with no provider: `spInfo[0]` panics in
`createBucket` (flag `--primarySP` unset) and in `listBuckets`; with one
provider both take it. -/
theorem default_provider_panics_on_empty_list :
    createBucketPrimarySp id "".toList (.ok []) = Step.panic
      ∧ listBucketsEndpoint (.ok []) = Step.panic
      ∧ createBucketPrimarySp id "".toList
          (.ok [⟨"0xSP".toList, "https://sp".toList⟩])
        = Step.continues "0xSP".toList
      ∧ listBucketsEndpoint (.ok [⟨"0xSP".toList, "https://sp".toList⟩])
        = Step.continues "https://sp".toList :=
  ⟨rfl, rfl, rfl, rfl⟩

end MechainCmd
